import Mathlib

/-!
# Verification of the D-Calculator core (D-Calculator-1.0.0.py)

Shallow embedding of the calculator's numeric core and of its input
transducer, following the source file `Previous Versions/D-Calculator-1.0.0.py`.

Python floats are idealized as real numbers extended with the three
non-finite values `+inf`, `-inf` and `nan` (type `DCalc.F` below).  All
arithmetic on finite values is exact real arithmetic; Python's `round`
(banker's rounding to `n` decimal digits) and `%` (sign-of-divisor
remainder) are modelled by `DCalc.pyround` and `DCalc.pymod`.  Python `==`
and `!=` on floats (false resp. true whenever a NaN is involved) are
modelled by `DCalc.F.peq` / `DCalc.F.pne`; `<`, `<=` by `DCalc.F.lt` /
`DCalc.F.le` (false whenever a NaN is involved).

Python `pow`/`**` with an integer literal exponent is exact iterated
multiplication (`DCalc.F.pow`); with a float exponent it is the real
power (`DCalc.F.rpow`, via `Real.rpow`).  The source only applies a float
exponent to a positive base, so the other cases of `F.rpow` are
unreachable there and are mapped to `nan`.

Division by exactly zero raises `ZeroDivisionError` in Python.  Every
division in the modelled core is behind a guard that rules the case out
(`tan` checks `c == 0`, `sgn` checks `x == 0`, factorial denominators are
positive, the solvers are only claimed for `a ≠ 0`), so `F.div _ 0` is
mapped to `nan` as an unreachable-case placeholder.
-/

namespace DCalc

/-- A Python float value: a finite real, `+inf`, `-inf`, or NaN. -/
inductive F where
  | num : ℝ → F
  | pinf : F
  | ninf : F
  | nan : F

/-- Python `<` on floats: any comparison involving NaN is false;
`-inf < x < +inf` for finite `x`. -/
def F.lt : F → F → Prop
  | F.num a, F.num b => a < b
  | F.num _, F.pinf => True
  | F.ninf, F.num _ => True
  | F.ninf, F.pinf => True
  | _, _ => False

/-- Python `<=` on floats: false whenever NaN is involved. -/
def F.le : F → F → Prop
  | F.num a, F.num b => a ≤ b
  | F.num _, F.pinf => True
  | F.ninf, F.num _ => True
  | F.ninf, F.pinf => True
  | F.pinf, F.pinf => True
  | F.ninf, F.ninf => True
  | _, _ => False

/-- Python `==` on floats: false whenever NaN is involved. -/
def F.peq : F → F → Prop
  | F.num a, F.num b => a = b
  | F.pinf, F.pinf => True
  | F.ninf, F.ninf => True
  | _, _ => False

/-- Python `!=` on floats: true whenever NaN is involved. -/
def F.pne (x y : F) : Prop := ¬ F.peq x y

/-- Source `nan(x)`: `not float('-inf') < x < float('inf')` — true exactly
on `+inf`, `-inf` and NaN. -/
def nan (x : F) : Prop := ¬ (F.lt F.ninf x ∧ F.lt x F.pinf)

/-- Python unary `-` on floats. -/
def F.neg : F → F
  | F.num a => F.num (-a)
  | F.pinf => F.ninf
  | F.ninf => F.pinf
  | F.nan => F.nan

/-- Python `abs` on floats. -/
def F.abs : F → F
  | F.num a => F.num |a|
  | F.pinf => F.pinf
  | F.ninf => F.pinf
  | F.nan => F.nan

open Classical in
/-- Python `+` on floats (`inf + -inf = nan`). -/
noncomputable def F.add : F → F → F
  | F.num a, F.num b => F.num (a + b)
  | F.num _, F.pinf => F.pinf
  | F.num _, F.ninf => F.ninf
  | F.pinf, F.num _ => F.pinf
  | F.ninf, F.num _ => F.ninf
  | F.pinf, F.pinf => F.pinf
  | F.ninf, F.ninf => F.ninf
  | F.pinf, F.ninf => F.nan
  | F.ninf, F.pinf => F.nan
  | _, _ => F.nan

/-- Python `-` on floats, as `x + (-y)` (same value semantics). -/
noncomputable def F.sub (x y : F) : F := F.add x (F.neg y)

open Classical in
/-- Python `*` on floats (`inf * 0 = nan`). -/
noncomputable def F.mul : F → F → F
  | F.num a, F.num b => F.num (a * b)
  | F.num a, F.pinf => if 0 < a then F.pinf else if a < 0 then F.ninf else F.nan
  | F.num a, F.ninf => if 0 < a then F.ninf else if a < 0 then F.pinf else F.nan
  | F.pinf, F.num a => if 0 < a then F.pinf else if a < 0 then F.ninf else F.nan
  | F.ninf, F.num a => if 0 < a then F.ninf else if a < 0 then F.pinf else F.nan
  | F.pinf, F.pinf => F.pinf
  | F.ninf, F.ninf => F.pinf
  | F.pinf, F.ninf => F.ninf
  | F.ninf, F.pinf => F.ninf
  | _, _ => F.nan

open Classical in
/-- Python `/` on floats.  Division by exactly `0` raises in Python and is
unreachable behind the source's guards; it is mapped to `nan` here. -/
noncomputable def F.div : F → F → F
  | F.num a, F.num b => if b = 0 then F.nan else F.num (a / b)
  | F.num _, F.pinf => F.num 0
  | F.num _, F.ninf => F.num 0
  | F.pinf, F.num b => if 0 ≤ b then F.pinf else F.ninf
  | F.ninf, F.num b => if 0 ≤ b then F.ninf else F.pinf
  | _, _ => F.nan

open Classical in
/-- Python `pow` with a nonnegative integer-literal exponent
(exact iterated multiplication; `x ** 0 = 1.0` even for `nan`). -/
noncomputable def F.pow : F → ℕ → F
  | F.num a, n => F.num (a ^ n)
  | F.pinf, n => if n = 0 then F.num 1 else F.pinf
  | F.ninf, n => if n = 0 then F.num 1 else if n % 2 = 0 then F.pinf else F.ninf
  | F.nan, n => if n = 0 then F.num 1 else F.nan

/-- Python `pow`/`**` with a float exponent: the real power.  The source
only reaches this with a positive finite base and finite exponent; all
other cases are mapped to `nan`. -/
noncomputable def F.rpow : F → F → F
  | F.num a, F.num b => F.num (a ^ b)
  | _, _ => F.nan

/-- Floor-based remainder: Python `x % m` for finite floats
(result has the sign of `m`; here always used with `m > 0`). -/
noncomputable def pymod (x m : ℝ) : ℝ := x - m * ⌊x / m⌋

/-- Round half to even, to an integer (Python's `round` tie rule). -/
noncomputable def roundHalfEven (y : ℝ) : ℤ :=
  if Int.fract y = 1 / 2 then (if Even ⌊y⌋ then ⌊y⌋ else ⌊y⌋ + 1) else round y

/-- Python `round(x, n)` on a finite float, idealized over ℝ. -/
noncomputable def pyround (x : ℝ) (n : ℕ) : ℝ := (roundHalfEven (x * 10 ^ n) : ℝ) / 10 ^ n

/-- Python `x % m` on floats (`m` a positive finite literal in the source;
`±inf % m = nan`, `nan % m = nan`). -/
noncomputable def F.mod : F → F → F
  | F.num a, F.num b => if b = 0 then F.nan else F.num (pymod a b)
  | _, _ => F.nan

/-- Python `round(x, n)` on floats (`round(±inf, n) = ±inf`,
`round(nan, n) = nan`). -/
noncomputable def F.round : F → ℕ → F
  | F.num a, n => F.num (pyround a n)
  | F.pinf, _ => F.pinf
  | F.ninf, _ => F.ninf
  | F.nan, _ => F.nan

@[simp] theorem F.lt_num_num (a b : ℝ) : F.lt (F.num a) (F.num b) ↔ a < b := Iff.rfl

@[simp] theorem F.le_num_num (a b : ℝ) : F.le (F.num a) (F.num b) ↔ a ≤ b := Iff.rfl

@[simp] theorem F.peq_num_num (a b : ℝ) : F.peq (F.num a) (F.num b) ↔ a = b := Iff.rfl

@[simp] theorem F.pne_num_num (a b : ℝ) : F.pne (F.num a) (F.num b) ↔ a ≠ b := Iff.rfl

@[simp] theorem nan_num (a : ℝ) : ¬ nan (F.num a) := by
  simp [nan, F.lt]

@[simp] theorem nan_pinf : nan F.pinf := by
  simp [nan, F.lt]

@[simp] theorem nan_ninf : nan F.ninf := by
  simp [nan, F.lt]

@[simp] theorem nan_nan : nan F.nan := by
  simp [nan, F.lt]

@[simp] theorem F.add_num_num (a b : ℝ) : F.add (F.num a) (F.num b) = F.num (a + b) := rfl

@[simp] theorem F.sub_num_num (a b : ℝ) : F.sub (F.num a) (F.num b) = F.num (a - b) := by
  simp [F.sub, F.neg, F.add, sub_eq_add_neg]

@[simp] theorem F.mul_num_num (a b : ℝ) : F.mul (F.num a) (F.num b) = F.num (a * b) := rfl

@[simp] theorem F.neg_num (a : ℝ) : F.neg (F.num a) = F.num (-a) := rfl

@[simp] theorem F.abs_num (a : ℝ) : F.abs (F.num a) = F.num |a| := rfl

@[simp] theorem F.pow_num (a : ℝ) (n : ℕ) : F.pow (F.num a) n = F.num (a ^ n) := rfl

@[simp] theorem F.rpow_num_num (a b : ℝ) : F.rpow (F.num a) (F.num b) = F.num (a ^ b) := rfl

theorem F.div_num_num (a b : ℝ) (hb : b ≠ 0) :
    F.div (F.num a) (F.num b) = F.num (a / b) := by
  simp [F.div, hb]

theorem F.mod_num_num (a b : ℝ) (hb : b ≠ 0) :
    F.mod (F.num a) (F.num b) = F.num (pymod a b) := by
  simp [F.mod, hb]

@[simp] theorem F.round_num (a : ℝ) (n : ℕ) : F.round (F.num a) n = F.num (pyround a n) := rfl

@[simp] theorem F.round_nan (n : ℕ) : F.round F.nan n = F.nan := rfl

@[simp] theorem F.mod_nan (y : F) : F.mod F.nan y = F.nan := rfl

@[simp] theorem F.add_nan (y : F) : F.add F.nan y = F.nan := by
  cases y <;> rfl

@[simp] theorem F.mul_nan (y : F) : F.mul F.nan y = F.nan := by
  cases y <;> rfl

@[simp] theorem F.div_nan (y : F) : F.div F.nan y = F.nan := by
  cases y <;> rfl

@[simp] theorem F.sub_nan (y : F) : F.sub F.nan y = F.nan := by
  cases y <;> rfl

@[simp] theorem F.abs_nan : F.abs F.nan = F.nan := rfl

/-- `pymod x m` for positive `m` lies in `[0, m)`. -/
theorem pymod_nonneg_lt {x m : ℝ} (hm : 0 < m) : 0 ≤ pymod x m ∧ pymod x m < m := by
  unfold pymod
  have h1 : (⌊x / m⌋ : ℝ) * m ≤ x := (le_div_iff hm).mp (Int.floor_le (x / m))
  have h2 : x < ((⌊x / m⌋ : ℝ) + 1) * m := (div_lt_iff hm).mp (Int.lt_floor_add_one (x / m))
  constructor <;> nlinarith

/-- `pymod` differs from its argument by an integer multiple of the modulus. -/
theorem pymod_sub_int (x m : ℝ) : ∃ k : ℤ, pymod x m = x - m * k :=
  ⟨⌊x / m⌋, rfl⟩

/-- An integer is a fixed point of `roundHalfEven`. -/
theorem roundHalfEven_intCast (n : ℤ) : roundHalfEven (n : ℝ) = n := by
  unfold roundHalfEven
  rw [Int.fract_intCast]
  norm_num

/-- A real with `n * 10 ^ d` integral is a fixed point of `pyround · d`. -/
theorem pyround_of_int {x : ℝ} {d : ℕ} (n : ℤ) (h : x * 10 ^ d = (n : ℝ)) :
    pyround x d = x := by
  unfold pyround
  rw [h, roundHalfEven_intCast, ← h]
  field_simp

/-- An integer-valued real is a fixed point of `pyround · d`. -/
theorem pyround_intCast (n : ℤ) (d : ℕ) : pyround (n : ℝ) d = n :=
  pyround_of_int (n * 10 ^ d) (by push_cast; ring)

/-- `pymod n 1 = 0` on integers. -/
theorem pymod_intCast_one (n : ℤ) : pymod (n : ℝ) 1 = 0 := by
  unfold pymod
  norm_num

/-- `pymod x 1 = 0` forces `x` to be an integer. -/
theorem pymod_one_eq_zero_iff (x : ℝ) : pymod x 1 = 0 ↔ ∃ n : ℤ, x = n := by
  unfold pymod
  constructor
  · intro h
    exact ⟨⌊x / 1⌋, by rw [div_one] at h ⊢; linarith⟩
  · rintro ⟨n, rfl⟩
    norm_num

/-- The source's `pi`: 11 terms of the Machin-like series
`pi += (-1)^i * (16/((2i+1)*5^(2i+1)) - 4/((2i+1)*239^(2i+1)))`. -/
noncomputable def picode : ℝ :=
  (List.range 11).foldl
    (fun p (i : ℕ) => p + (-1 : ℝ) ^ i *
      (16 / ((2 * (i : ℝ) + 1) * 5 ^ (2 * i + 1 : ℕ)) -
        4 / ((2 * (i : ℝ) + 1) * 239 ^ (2 * i + 1 : ℕ)))) 0

/-- The iterative product of `fact`'s else-branch:
`out = x; for i in range(1, x): out = out * (x - i)` (with `0 → 1`). -/
def factLoop (n : ℤ) : ℤ :=
  if n = 0 then 1
  else (List.range (n.toNat - 1)).foldl (fun out (i : ℕ) => out * (n - ((i : ℤ) + 1))) n

open Classical in
/-- Source `fact(x)`: round to 13 digits; NaN unless the result is a
nonnegative integer; otherwise the iterative product.  (`int(x)` truncates
in Python; on the guarded path `x` is a nonnegative integer, so it agrees
with the floor used here.) -/
noncomputable def fact (x : F) : F :=
  let x := F.round x 13
  if F.pne (F.mod x (F.num 1)) (F.num 0) ∨ F.lt x (F.num 0) ∨ nan x then F.nan
  else match x with
    | F.num v => F.num ((factLoop ⌊v⌋ : ℤ) : ℝ)
    | _ => F.nan

/-- The source's `e`: `for i in range(18): e = e + 1 / fact(i)`, accumulated
with float (here: `F`) arithmetic through the library's own `fact`. -/
noncomputable def eF : F :=
  (List.range 18).foldl (fun a (i : ℕ) => F.add a (F.div (F.num 1) (fact (F.num (i : ℝ))))) (F.num 0)

open Classical in
/-- Source `induce(x)`: NaN above the `10^10` ceiling (signed comparison!)
or on non-finite input; otherwise reduce modulo `2*pi` into `(-pi, pi]`. -/
noncomputable def induce (x : F) : F :=
  if F.lt (F.num (10 ^ 10)) x ∨ nan x then F.nan
  else match x with
    | F.num v =>
      let r := pymod v (2 * picode)
      if 0 ≤ r ∧ picode < r then F.num (r - 2 * picode)
      else if r < 0 ∧ r < -picode then F.num (r + 2 * picode)
      else F.num r
    | _ => F.nan

open Classical in
/-- Source `sgn(x)`: NaN-propagating sign, computed as `abs(x)/x`. -/
noncomputable def sgn (x : F) : F :=
  if nan x then F.nan
  else if F.peq x (F.num 0) then F.num 0
  else F.div (F.abs x) x

open Classical in
/-- Source `sin(x)`: reduce `abs(x)`, exact zeros at `0` and `pi`, 16-term
alternating series, quadrant sign correction, then the original sign. -/
noncomputable def sin (x : F) : F :=
  let kx := x
  let x := induce (F.abs x)
  if nan x then F.nan
  else
    let out :=
      if F.peq x (F.num 0) ∨ F.peq (F.abs x) (F.num picode) then F.num 0
      else
        let s := (List.range 16).foldl
          (fun out i => F.add out (F.div (F.mul (F.num ((-1 : ℝ) ^ i)) (F.pow x (2 * i + 1)))
            (fact (F.num ((2 * i + 1 : ℕ) : ℝ))))) (F.num 0)
        if F.lt (F.num 0) x ∧ F.lt x (F.num picode) then F.abs s else F.neg (F.abs s)
    F.mul (sgn kx) out

open Classical in
/-- Source `cos(x)`: reduce `abs(x)`, exact zero at `pi/2`, 16-term
alternating series, quadrant sign correction. -/
noncomputable def cos (x : F) : F :=
  let x := induce (F.abs x)
  if nan x then F.nan
  else
    if F.peq x (F.num (picode / 2)) then F.num 0
    else
      let s := (List.range 16).foldl
        (fun out i => F.add out (F.div (F.mul (F.num ((-1 : ℝ) ^ i)) (F.pow x (2 * i)))
          (fact (F.num ((2 * i : ℕ) : ℝ))))) (F.num 0)
      if F.le (F.num 0) x ∧ F.lt x (F.num (picode / 2)) then F.abs s else F.neg (F.abs s)

open Classical in
/-- Source `tan(x) = sin(x)/cos(x)`, NaN when `cos` is exactly zero. -/
noncomputable def tan (x : F) : F :=
  let s := sin x
  let c := cos x
  if F.peq c (F.num 0) ∨ nan c ∨ nan s then F.nan
  else F.div s c

open Classical in
/-- Source `atan(x)`: `tan(x)` with NaN replaced by the finite proxy
`tan(pi/2 - 10^-15)`. -/
noncomputable def atan (x : F) : F :=
  let t := tan x
  if nan t then tan (F.num (picode / 2 - 10 ^ (-15 : ℤ)))
  else t

open Classical in
/-- Inner ascending search of `arcsin`: `while dt == 0: if sin(out) < x:
out += st else: dt = 1`.  The `while` has no iteration cap in the source;
`fuel` bounds the modelled recursion (`none` = budget exhausted). -/
noncomputable def arcsinUp (x st : ℝ) : ℝ → ℕ → Option ℝ
  | _, 0 => none
  | out, fuel + 1 =>
    if F.lt (sin (F.num out)) (F.num x) then arcsinUp x st (out + st) fuel else some out

open Classical in
/-- Inner descending search of `arcsin`: `while dt == 1: if sin(out) > x:
out -= st else: dt = 0`. -/
noncomputable def arcsinDown (x st : ℝ) : ℝ → ℕ → Option ℝ
  | _, 0 => none
  | out, fuel + 1 =>
    if F.lt (F.num x) (sin (F.num out)) then arcsinDown x st (out - st) fuel else some out

open Classical in
/-- Outer refinement of `arcsin`: `for i in range(1, 16)` with step
`pi/10^i`, alternating the two inner searches, breaking when
`sin(out) == x`. -/
noncomputable def arcsinIter (x : ℝ) (fuel : ℕ) : List ℕ → ℝ → Bool → Option ℝ
  | [], out, _ => some out
  | i :: rest, out, dt =>
    (if dt then arcsinDown x (picode / 10 ^ i) out fuel
     else arcsinUp x (picode / 10 ^ i) out fuel).bind fun out1 =>
      if F.peq (sin (F.num out1)) (F.num x) then some out1
      else arcsinIter x fuel rest out1 (!dt)

open Classical in
/-- Source `arcsin(x)`: NaN if `abs(x) > 1` or non-finite; otherwise the
bounded monotonic search from `-pi/2`. -/
noncomputable def arcsin (fuel : ℕ) (x : F) : Option F :=
  if F.lt (F.num 1) (F.abs x) ∨ nan x then some F.nan
  else match x with
    | F.num v =>
      (arcsinIter v fuel ((List.range 15).map (· + 1)) (-(picode / 2)) false).map F.num
    | _ => some F.nan

open Classical in
/-- Inner ascending search of `arccos`: `while dt == 0: if cos(out) > x:
out += st else: dt = 1`. -/
noncomputable def arccosUp (x st : ℝ) : ℝ → ℕ → Option ℝ
  | _, 0 => none
  | out, fuel + 1 =>
    if F.lt (F.num x) (cos (F.num out)) then arccosUp x st (out + st) fuel else some out

open Classical in
/-- Inner descending search of `arccos`: `while dt == 1: if cos(out) < x:
out -= st else: dt = 0`. -/
noncomputable def arccosDown (x st : ℝ) : ℝ → ℕ → Option ℝ
  | _, 0 => none
  | out, fuel + 1 =>
    if F.lt (cos (F.num out)) (F.num x) then arccosDown x st (out - st) fuel else some out

open Classical in
/-- Outer refinement of `arccos`, breaking when `cos(out) == x`. -/
noncomputable def arccosIter (x : ℝ) (fuel : ℕ) : List ℕ → ℝ → Bool → Option ℝ
  | [], out, _ => some out
  | i :: rest, out, dt =>
    (if dt then arccosDown x (picode / 10 ^ i) out fuel
     else arccosUp x (picode / 10 ^ i) out fuel).bind fun out1 =>
      if F.peq (cos (F.num out1)) (F.num x) then some out1
      else arccosIter x fuel rest out1 (!dt)

open Classical in
/-- Source `arccos(x)`: NaN if `abs(x) > 1` or non-finite; otherwise the
bounded monotonic search from `0`. -/
noncomputable def arccos (fuel : ℕ) (x : F) : Option F :=
  if F.lt (F.num 1) (F.abs x) ∨ nan x then some F.nan
  else match x with
    | F.num v => (arccosIter v fuel ((List.range 15).map (· + 1)) 0 false).map F.num
    | _ => some F.nan

open Classical in
/-- Inner ascending search of `arctan` (`atan(out) < x`). -/
noncomputable def arctanUp (x st : ℝ) : ℝ → ℕ → Option ℝ
  | _, 0 => none
  | out, fuel + 1 =>
    if F.lt (atan (F.num out)) (F.num x) then arctanUp x st (out + st) fuel else some out

open Classical in
/-- Inner descending search of `arctan` (`atan(out) > x`). -/
noncomputable def arctanDown (x st : ℝ) : ℝ → ℕ → Option ℝ
  | _, 0 => none
  | out, fuel + 1 =>
    if F.lt (F.num x) (atan (F.num out)) then arctanDown x st (out - st) fuel else some out

open Classical in
/-- Outer refinement of `arctan`, breaking when `tan(x) == out`
(so written in the source). -/
noncomputable def arctanIter (x : ℝ) (fuel : ℕ) : List ℕ → ℝ → Bool → Option ℝ
  | [], out, _ => some out
  | i :: rest, out, dt =>
    (if dt then arctanDown x (picode / 10 ^ i) out fuel
     else arctanUp x (picode / 10 ^ i) out fuel).bind fun out1 =>
      if F.peq (tan (F.num x)) (F.num out1) then some out1
      else arctanIter x fuel rest out1 (!dt)

open Classical in
/-- Source `arctan(x)`: NaN if `abs(x) >= tan(pi/2 - 10^-15)` or
non-finite; otherwise the search from `0`, descending first iff `x < 0`. -/
noncomputable def arctan (fuel : ℕ) (x : F) : Option F :=
  if F.le (tan (F.num (picode / 2 - 10 ^ (-15 : ℤ)))) (F.abs x) ∨ nan x then some F.nan
  else match x with
    | F.num v =>
      (arctanIter v fuel ((List.range 15).map (· + 1)) 0 (decide (v < 0))).map F.num
    | _ => some F.nan

open Classical in
/-- Inner ascending search of `ln` (`e ** out < x`). -/
noncomputable def lnUp (x : F) (st : ℝ) : ℝ → ℕ → Option ℝ
  | _, 0 => none
  | out, fuel + 1 =>
    if F.lt (F.rpow eF (F.num out)) x then lnUp x st (out + st) fuel else some out

open Classical in
/-- Inner descending search of `ln` (`e ** out > x`). -/
noncomputable def lnDown (x : F) (st : ℝ) : ℝ → ℕ → Option ℝ
  | _, 0 => none
  | out, fuel + 1 =>
    if F.lt x (F.rpow eF (F.num out)) then lnDown x st (out - st) fuel else some out

open Classical in
/-- Outer refinement of `ln`: `for i in range(16)` with step `100/10^i`,
breaking when `e ** out == x`. -/
noncomputable def lnIter (x : F) (fuel : ℕ) : List ℕ → ℝ → Bool → Option ℝ
  | [], out, _ => some out
  | i :: rest, out, dt =>
    (if dt then lnDown x (100 / 10 ^ i) out fuel
     else lnUp x (100 / 10 ^ i) out fuel).bind fun out1 =>
      if F.peq (F.rpow eF (F.num out1)) x then some out1
      else lnIter x fuel rest out1 (!dt)

open Classical in
/-- Source `ln(x)`: NaN if `abs(x) >= e^600`, `x <= 0` or non-finite;
otherwise the exponent search from `-600`. -/
noncomputable def ln (fuel : ℕ) (x : F) : Option F :=
  if F.le (F.pow eF 600) (F.abs x) ∨ F.le x (F.num 0) ∨ nan x then some F.nan
  else (lnIter x fuel (List.range 16) (-600) false).map F.num

open Classical in
/-- Source `lg(x) = ln(x)/ln(10)`, NaN on `x <= 0` or non-finite. -/
noncomputable def lg (fuel : ℕ) (x : F) : Option F :=
  if nan x ∨ F.le x (F.num 0) then some F.nan
  else do
    let a ← ln fuel x
    let b ← ln fuel (F.num 10)
    pure (F.div a b)

open Classical in
/-- Source `log(x, y) = ln(y)/ln(x)`, NaN on base 1, nonpositive base or
argument, or non-finite input. -/
noncomputable def log (fuel : ℕ) (x y : F) : Option F :=
  if nan x ∨ nan y ∨ F.peq x (F.num 1) ∨ F.le x (F.num 0) ∨ F.le y (F.num 0) then some F.nan
  else do
    let a ← ln fuel y
    let b ← ln fuel x
    pure (F.div a b)

open Classical in
/-- Source `fc(x, y)`: combinations `fact(x)/(fact(x-y)*fact(y))` on
rounded integer pairs with `0 ≤ y ≤ x`, NaN otherwise.  (The source's
`int()` conversions are value-preserving on the guarded path.) -/
noncomputable def fc (x y : F) : F :=
  let x := F.round x 13
  let y := F.round y 13
  if F.pne (F.mod x (F.num 1)) (F.num 0) ∨ F.pne (F.mod y (F.num 1)) (F.num 0) ∨
      nan x ∨ nan y then F.nan
  else if F.lt x y ∨ F.lt x (F.num 0) ∨ F.lt y (F.num 0) then F.nan
  else F.div (fact x) (F.mul (fact (F.sub x y)) (fact y))

open Classical in
/-- Source `fp(x, y)`: permutations `fact(x)/fact(x-y)`, guarded as `fc`. -/
noncomputable def fp (x y : F) : F :=
  let x := F.round x 13
  let y := F.round y 13
  if F.pne (F.mod x (F.num 1)) (F.num 0) ∨ F.pne (F.mod y (F.num 1)) (F.num 0) ∨
      nan x ∨ nan y then F.nan
  else if F.lt x y ∨ F.lt x (F.num 0) ∨ F.lt y (F.num 0) then F.nan
  else F.div (fact x) (fact (F.sub x y))

open Classical in
/-- Source `sinh(x) = (e^x - e^-x)/2`, NaN-propagating. -/
noncomputable def sinh (x : F) : F :=
  if nan x then F.nan
  else F.div (F.sub (F.rpow eF x) (F.rpow eF (F.neg x))) (F.num 2)

open Classical in
/-- Source `cosh(x) = (e^x + e^-x)/2`, NaN-propagating. -/
noncomputable def cosh (x : F) : F :=
  if nan x then F.nan
  else F.div (F.add (F.rpow eF x) (F.rpow eF (F.neg x))) (F.num 2)

open Classical in
/-- Source `tanh(x) = sinh(x)/cosh(x)`, NaN-propagating. -/
noncomputable def tanh (x : F) : F :=
  let s := sinh x
  let c := cosh x
  if nan s ∨ nan c ∨ nan x then F.nan
  else F.div s c

open Classical in
/-- Source `arsinh(x) = ln(x + (x^2 + 1)^0.5)`, NaN-propagating. -/
noncomputable def arsinh (fuel : ℕ) (x : F) : Option F :=
  if nan x then some F.nan
  else ln fuel (F.add x (F.rpow (F.add (F.pow x 2) (F.num 1)) (F.num 0.5)))

open Classical in
/-- Source `arcosh(x) = ln(x + (x^2 - 1)^0.5)`, NaN if `x < 1`. -/
noncomputable def arcosh (fuel : ℕ) (x : F) : Option F :=
  if F.lt x (F.num 1) ∨ nan x then some F.nan
  else ln fuel (F.add x (F.rpow (F.sub (F.pow x 2) (F.num 1)) (F.num 0.5)))

open Classical in
/-- Source `artanh(x) = 0.5 * ln((-x - 1)/(x - 1))`, NaN if `abs(x) >= 1`. -/
noncomputable def artanh (fuel : ℕ) (x : F) : Option F :=
  if F.le (F.num 1) (F.abs x) ∨ nan x then some F.nan
  else (ln fuel (F.div (F.sub (F.neg x) (F.num 1)) (F.sub x (F.num 1)))).map
    (fun l => F.mul (F.num 0.5) l)

open Classical in
/-- The periodicity search of `fi` for a negative base: starting from
`dt = k = 0`, `T = 10`, try `k = 0, 1, 2, ...` until either `n*k` is
integral to 10 digits (`k ≠ 0`), the cap `k >= 2*10^5` fires, or the
rotated sine vanishes to 10 digits, in which case `T` becomes the sign of
the rotated cosine.  Returns the final `T`. -/
noncomputable def fiLoop (n : ℝ) (k : ℕ) : F :=
  if k ≠ 0 ∧ pymod (pyround (n * k) 10) 1 = 0 then F.num 10
  else if 2 * 10 ^ 5 ≤ k then F.num 10
  else if F.peq (F.round (sin (F.num (n * picode + 2 * n * (k : ℝ) * picode))) 10) (F.num 0) then
    sgn (cos (F.num (n * picode + 2 * n * (k : ℝ) * picode)))
  else fiLoop n (k + 1)
termination_by 2 * 10 ^ 5 + 1 - k
decreasing_by omega

open Classical in
/-- Source `fi(x, n)`: the general real power.  NaN for `0` to a
nonpositive power or non-finite input; `pow(x, n)` for positive `x`; `0`
for zero `x`; otherwise the periodicity search decides the sign `T` of
the real value `T * pow(-x, n)`, or NaN when the search fails. -/
noncomputable def fi (x n : F) : F :=
  if (F.peq x (F.num 0) ∧ F.le n (F.num 0)) ∨ nan x ∨ nan n then F.nan
  else if F.lt (F.num 0) x then F.rpow x n
  else if F.peq x (F.num 0) then F.num 0
  else match x, n with
    | F.num xv, F.num nv =>
      let T := fiLoop nv 0
      if F.pne T (F.num 10) then F.mul T (F.rpow (F.num (-xv)) (F.num nv))
      else F.nan
    | _, _ => F.nan

open Classical in
/-- Source `f2(a, b, c, y, z)`: the quadratic solver.  Computes the root
list `G` (two reals / one repeated / real part then `±` imaginary part)
and the vertex `D = -b/(2a)`, returning `G` when `y == 1`, `D` when
`z == 1`, and nothing otherwise (Python falls through to `None`). -/
noncomputable def f2 (a b c : F) (y z : ℤ) : Option (List F ⊕ F) :=
  let GD : List F × F :=
    if nan a ∨ nan b ∨ nan c then ([F.nan, F.nan], F.nan)
    else
      let D := F.div (F.neg b) (F.mul (F.num 2) a)
      let dt := F.sub (F.pow b 2) (F.mul (F.mul (F.num 4) a) c)
      let G :=
        if F.lt (F.num 0) dt then
          [F.div (F.add (F.neg b) (F.rpow dt (F.num 0.5))) (F.mul (F.num 2) a),
           F.div (F.sub (F.neg b) (F.rpow dt (F.num 0.5))) (F.mul (F.num 2) a)]
        else if F.peq dt (F.num 0) then [D]
        else
          let xb := F.div (F.rpow (F.neg dt) (F.num 0.5)) (F.mul (F.num 2) a)
          [D, xb, F.neg xb]
      (G, D)
  if y = 1 then some (Sum.inl GD.1)
  else if z = 1 then some (Sum.inr GD.2)
  else none

open Classical in
/-- Source `f3(a, b, c, d, y, z)`: the cubic solver over the invariants
`A = b^2 - 3ac`, `B = bc - 9ad`, `C = c^2 - 3bd`, `DT = B^2 - 4AC`,
returning the root list `G` when `y == 1` and the derivative's stationary
points `D` when `z == 1`.  The `DT < 0` branch uses the search-based
`arccos`, hence the `fuel` parameter (as elsewhere, `none` = search budget
exhausted; unreachable for the claims below). -/
noncomputable def f3 (fuel : ℕ) (a b c d : F) (y z : ℤ) : Option (List F ⊕ List F) :=
  if nan a ∨ nan b ∨ nan c then
    (if y = 1 then some (Sum.inl [F.nan, F.nan, F.nan])
     else if z = 1 then some (Sum.inr [F.nan, F.nan]) else none)
  else
    let kc := c
    let A := F.sub (F.pow b 2) (F.mul (F.mul (F.num 3) a) c)
    let B := F.sub (F.mul b c) (F.mul (F.mul (F.num 9) a) d)
    let C := F.sub (F.pow c 2) (F.mul (F.mul (F.num 3) b) d)
    let DT := F.sub (F.pow B 2) (F.mul (F.mul (F.num 4) A) C)
    let Gopt : Option (List F) :=
      if F.peq A (F.num 0) ∧ F.peq B (F.num 0) then
        some [F.div (F.neg b) (F.mul (F.num 3) a)]
      else if F.lt (F.num 0) DT then
        let Y1 := fi (F.add (F.mul A b) (F.mul (F.mul (F.num 1.5) a)
          (F.add (F.neg B) (F.rpow DT (F.num 0.5))))) (F.num (1 / 3))
        let Y2 := fi (F.add (F.mul A b) (F.mul (F.mul (F.num 1.5) a)
          (F.sub (F.neg B) (F.rpow DT (F.num 0.5))))) (F.num (1 / 3))
        let x1 := F.div (F.sub (F.sub (F.neg b) Y1) Y2) (F.mul (F.num 3) a)
        let r := F.div (F.add (F.neg b) (F.mul (F.num 0.5) (F.add Y1 Y2))) (F.mul (F.num 3) a)
        let cc := F.div (F.mul (F.rpow (F.num 3) (F.num 0.5)) (F.sub Y1 Y2)) (F.mul (F.num 6) a)
        some [x1, r, cc, F.neg cc]
      else if F.peq DT (F.num 0) then
        let K := F.div B A
        some [F.add (F.div (F.neg b) a) K, F.neg (F.div K (F.num 2))]
      else
        let T := F.div (F.sub (F.mul (F.mul (F.num 2) A) b) (F.mul (F.mul (F.num 3) a) B))
          (F.mul (F.num 2) (F.rpow (F.pow A 3) (F.num 0.5)))
        (arccos fuel T).map fun ct =>
          let x1 := F.div (F.sub (F.neg b) (F.mul (F.mul (F.num 2) (F.rpow A (F.num 0.5)))
            (cos (F.div ct (F.num 3))))) (F.mul (F.num 3) a)
          let x2 := F.div (F.add (F.neg b) (F.mul (F.rpow A (F.num 0.5))
            (F.add (cos (F.div ct (F.num 3)))
              (F.mul (F.rpow (F.num 3) (F.num 0.5)) (sin (F.div ct (F.num 3)))))))
            (F.mul (F.num 3) a)
          let x3 := F.div (F.add (F.neg b) (F.mul (F.rpow A (F.num 0.5))
            (F.sub (cos (F.div ct (F.num 3)))
              (F.mul (F.rpow (F.num 3) (F.num 0.5)) (sin (F.div ct (F.num 3)))))))
            (F.mul (F.num 3) a)
          [x1, x2, x3]
    let da := F.mul (F.num 3) a
    let db := F.mul (F.num 2) b
    let dg := f2 da db kc 1 0
    let D : List F :=
      if F.lt (F.num 0) (F.sub (F.pow db 2) (F.mul (F.mul (F.num 4) da) kc)) then
        -- Python indexes dg[0], dg[1]; f2 yields two roots under the same
        -- positive-discriminant test, so the fallback is unreachable.
        match dg with
        | some (Sum.inl (g0 :: g1 :: _)) => [g0, g1]
        | _ => []
      else []
    Gopt.bind fun G =>
      if y = 1 then some (Sum.inl G)
      else if z = 1 then some (Sum.inr D) else none

open Classical in
/-- The `while abs(x) >= 10: i += 1; x = x / 10` loop of `better`:
returns the division count and the scaled value. -/
noncomputable def scaleDown (x : ℝ) : ℕ × ℝ :=
  if h : 10 ≤ |x| then
    let p := scaleDown (x / 10)
    (p.1 + 1, p.2)
  else (0, x)
termination_by (⌊|x|⌋).toNat
decreasing_by
  have h1 : |x / 10| + 1 ≤ |x| := by
    rw [abs_div]
    simp only [abs_of_nonneg (by norm_num : (0:ℝ) ≤ 10)]
    linarith
  have h2 : ⌊|x / 10|⌋ < ⌊|x|⌋ := by
    have := Int.floor_le_floor h1
    rw [Int.floor_add_one] at this
    omega
  have h3 : (0 : ℤ) < ⌊|x|⌋ := by
    have : (⌊(10 : ℝ)⌋ : ℤ) ≤ ⌊|x|⌋ := Int.floor_le_floor h
    norm_num at this
    omega
  omega

open Classical in
/-- The `while abs(x) < 1: i -= 1; x = x * 10` loop of `better`: returns
the multiplication count and the scaled value.  The source reaches it
only with `x ≥ 10^-10`; the `x ≠ 0` guard makes the model total. -/
noncomputable def scaleUp (x : ℝ) : ℕ × ℝ :=
  if h : |x| < 1 ∧ x ≠ 0 then
    let p := scaleUp (x * 10)
    (p.1 + 1, p.2)
  else (0, x)
termination_by (-⌊Real.logb 10 |x|⌋).toNat
decreasing_by
  have hx0 : (0 : ℝ) < |x| := abs_pos.mpr h.2
  have hlog : Real.logb 10 |x| < 0 := Real.logb_neg (by norm_num) hx0 h.1
  have hmul : Real.logb 10 |x * 10| = Real.logb 10 |x| + 1 := by
    rw [abs_mul, abs_of_nonneg (by norm_num : (0:ℝ) ≤ 10)]
    rw [Real.logb, Real.logb, Real.log_mul (ne_of_gt hx0) (by norm_num)]
    rw [add_div]
    congr 1
    rw [div_eq_one_iff_eq (Real.log_ne_zero_of_pos_of_ne_one (by norm_num) (by norm_num))]
  have hfl : ⌊Real.logb 10 |x|⌋ < 0 := Int.floor_lt.mpr (by exact_mod_cast hlog)
  rw [hmul, Int.floor_add_one]
  omega

open Classical in
/-- The scaling/zero-forcing stage of `better(x)` on a finite value:
produces the scaled value, the decimal exponent `i`, and the `dt` flag
marking a negative exponent.  Mirrors
`if abs(x) > 10^10: ... elif abs(x) < 10^-5: if x < 10^-10: x = 0.0
else: ...`. -/
noncomputable def betterCore (x : ℝ) : ℝ × ℤ × Bool :=
  if 10 ^ 10 < |x| then
    let p := scaleDown x
    (p.2, (p.1 : ℤ), false)
  else if |x| < 10 ^ (-5 : ℤ) then
    if x < 10 ^ (-10 : ℤ) then ((0 : ℝ), 0, false)
    else
      let p := scaleUp x
      (p.2, -(p.1 : ℤ), true)
  else (x, 0, false)

/-- Decimal rendering of the rounded value `m / 10^s` (trailing zeros
stripped, as Python's `str` of a float does). -/
def decStr (m : ℤ) : ℕ → String
  | 0 => toString m
  | s + 1 =>
    if m % 10 = 0 then decStr (m / 10) s
    else
      let sign := if m < 0 then "-" else ""
      let q := m.natAbs / 10 ^ (s + 1)
      let r := m.natAbs % 10 ^ (s + 1)
      let rs := toString r
      sign ++ toString q ++ "." ++ ("".pushn '0' (s + 1 - rs.length) ++ rs)

open Classical in
/-- Source `better(x)` with the caller's rounding precision `s`: the
scaled value is rounded to `s` digits (kept here as the integer
`m = roundHalfEven(y * 10^s)`, i.e. the value `m/10^s`), integers drop
the decimal point, and a nonzero exponent produces the `"*10^i"` form,
with parentheses around a negative exponent and a `1` mantissa elided.
A non-finite argument is mapped to the source's `"DC"` marker (Python
sets `"DC"` and then aborts on `abs("DC")`). -/
noncomputable def better (s : ℕ) (x : F) : String :=
  match x with
  | F.num v =>
    let p := betterCore v
    let m := roundHalfEven (p.1 * 10 ^ s)
    let istr := if p.2.2 then "(" ++ toString p.2.1 ++ ")" else toString p.2.1
    if p.2.1 ≠ 0 then
      if m = 10 ^ s then "10^" ++ istr
      else (if m % 10 ^ s = 0 then toString (m / 10 ^ s) else decStr m s) ++ "*10^" ++ istr
    else if m % 10 ^ s = 0 then toString (m / 10 ^ s)
    else decStr m s
  | _ => "DC"

/-! ## The input transducer (`inputx`)

The transducer is pure string processing and is modelled computably over
`List Char`.  The final `eval(out)` of the source (the expression
evaluator, a separate component in the specification) is outside the
transducer; `inputx` here returns the normalized expression `tout` (after
the source's `replace` of the printed `pi`/`e` constants and of the `fi`
power marker by `pow`) together with the four rewrite flags. -/

/-- Python's `str()` of the computed `pi` float (shortest round-trip
representation of the double). -/
def piStr : List Char := ['3', '.', '1', '4', '1', '5', '9', '2', '6', '5', '3', '5', '8', '9', '7', '9', '3']

/-- Python's `str()` of the computed `e` float. -/
def eStr : List Char := ['2', '.', '7', '1', '8', '2', '8', '1', '8', '2', '8', '4', '5', '9', '0', '4', '5']

/-- The accepted input alphabet (line 516 of the source). -/
def alphabetCh : List Char :=
  ['0', '1', '2', '3', '4', '5', '6', '7', '8', '9', 'A', 'p', 'e', '(', ')', '.', ',', '^',
   '+', '-', '*', '/', '!', 'C', 'P', 's', 'i', 'n', 'c', 'o', 't', 'a', 'h', 'r', 'l', 'g', 'b']

/-- The function-name letters (as single-character tokens). -/
def lettersL : List (List Char) :=
  [['s'], ['i'], ['n'], ['c'], ['o'], ['t'], ['a'], ['h'], ['r'], ['l'], ['g'], ['b']]

/-- The digit tokens. -/
def digitsL : List (List Char) :=
  [['0'], ['1'], ['2'], ['3'], ['4'], ['5'], ['6'], ['7'], ['8'], ['9']]

/-- Function names that, once matched, open a call with a pending
parenthesis (line 632). -/
def bigFnL : List (List Char) :=
  [['a', 'r', 'c', 's', 'i', 'n'],
   ['a', 'r', 'c', 'c', 'o', 's'],
   ['a', 'r', 'c', 't', 'a', 'n'],
   ['a', 'r', 's', 'i', 'n', 'h'],
   ['a', 'r', 'c', 'o', 's', 'h'],
   ['a', 'r', 't', 'a', 'n', 'h'],
   ['l', 'g'],
   ['l', 'n'],
   ['s', 'g', 'n'],
   ['a', 'b', 's']]

/-- The full list of recognized function names (lines 650, 712). -/
def legalFnL : List (List Char) :=
  [['s', 'i', 'n'],
   ['c', 'o', 's'],
   ['t', 'a', 'n'],
   ['s', 'i', 'n', 'h'],
   ['c', 'o', 's', 'h'],
   ['t', 'a', 'n', 'h'],
   ['a', 'r', 'c', 's', 'i', 'n'],
   ['a', 'r', 'c', 'c', 'o', 's'],
   ['a', 'r', 'c', 't', 'a', 'n'],
   ['a', 'r', 's', 'i', 'n', 'h'],
   ['a', 'r', 'c', 'o', 's', 'h'],
   ['a', 'r', 't', 'a', 'n', 'h'],
   ['l', 'o', 'g'],
   ['l', 'g'],
   ['l', 'n'],
   ['s', 'g', 'n'],
   ['a', 'b', 's']]

/-- Python `str.replace(pat, rep)`: leftmost, non-overlapping.  Every step
consumes at least one character, so the recursion is driven structurally
by a fuel initialized to the string length. -/
def replaceSubAux (pat rep : List Char) : ℕ → List Char → List Char
  | 0, s => s
  | _ + 1, [] => []
  | fuel + 1, c :: rest =>
    if pat ≠ [] ∧ pat.isPrefixOf (c :: rest) then
      rep ++ replaceSubAux pat rep fuel ((c :: rest).drop pat.length)
    else c :: replaceSubAux pat rep fuel rest

/-- Python `str.replace(pat, rep)`. -/
def replaceSub (pat rep : List Char) (s : List Char) : List Char :=
  replaceSubAux pat rep s.length s

/-- The transducer's result: the normalized expression `tout` and the four
postfix-rewrite flags `fact1, fi1, fc1, fp1`. -/
structure InputxRes where
  tout : List Char
  fact1 : ℕ
  fi1 : ℕ
  fc1 : ℕ
  fp1 : ℕ
deriving DecidableEq, Repr

/-- Source `inputx(x)`: the tokenizer/transducer, transcribed
statement-by-statement (lines 503–741).  `Ans` is the printed form of the
caller's carry-over value (`str(Ans)`; the REPL starts with `0`).
Failures (`"DC"`) come out as `tout = "DC"`.  The `while liststr != 0`
closing loops are rendered as `List.replicate liststr ')'`. -/
def inputx (Ans : List Char) (x : List Char) : InputxRes := Id.run do
  let mut li : List Char := []
  let mut ci : ℕ := 0
  let mut legal : List Char := []
  let mut fstr : List Char := []
  let mut out : List Char := []
  let mut l0 : ℤ := 0
  let mut fdt : ℕ := 0
  let mut strdt : ℕ := 0
  let mut legaldt : ℕ := 0
  let mut logdt : ℕ := 0
  let mut fjump : ℕ := 0
  let mut liststr : ℕ := 0
  let mut usc : ℕ := 0
  let mut kh : ℕ := 0
  let mut khl0 : ℤ := 0
  let mut jump : ℕ := 0
  let mut fact1 : ℕ := 0
  let mut fi1 : ℕ := 0
  let mut fc1 : ℕ := 0
  let mut fp1 : ℕ := 0
  if x.length > 485 then
    return ⟨['D', 'C'], fact1, fi1, fc1, fp1⟩
  if x = [] then
    return ⟨['D', 'C'], fact1, fi1, fc1, fp1⟩
  for ch in x do
    if ch ∉ alphabetCh then
      return ⟨['D', 'C'], fact1, fi1, fc1, fp1⟩
    else if jump ≠ 0 ∧ jump ≠ 8 then
      if jump = 1 ∧ ch ≠ 'i' then
        return ⟨['D', 'C'], fact1, fi1, fc1, fp1⟩
      if jump = 10 ∧ ch ≠ 'n' then
        return ⟨['D', 'C'], fact1, fi1, fc1, fp1⟩
      if jump = 9 ∧ ch ≠ 's' then
        return ⟨['D', 'C'], fact1, fi1, fc1, fp1⟩
      jump := jump - 1
    else
      let mut ic : List Char := [ch]
      let mut ri : List Char := [ch]
      if (ch = '*' ∧ li = ['*']) ∨ (ch = '/' ∧ li = ['/']) then
        return ⟨['D', 'C'], fact1, fi1, fc1, fp1⟩
      else
        if ch = '(' then
          l0 := l0 + 1
        else if ch = ')' then
          l0 := l0 - 1
        else if ch = 'p' then
          jump := 1
          ic := ['-', '1']
          ri := piStr
        else if ch = 'e' then
          ri := eStr
          ic := ['-', '1']
        else if ch = 'A' then
          jump := 10
          ri := Ans
          ic := ['-', '1']
        if li ∈ digitsL ∧ ic ∈ [['s'], ['c'], ['t'], ['a'], ['l'], ['(']] then
          ri := '*' :: ri
          ci := 1
        if li = [')'] ∧ ic = ['('] then
          ri := '*' :: ri
        if ic ∈ [['s'], ['c'], ['t'], ['a'], ['l']] ∧ li = [')'] then
          ci := 1
          ri := '*' :: ri
        if li = ['!'] ∧ ic ∉ [['+'], ['-'], ['*'], ['/'], ['^'], [')'], ['P'], ['C']] then
          ci := 1
          ri := '*' :: ri
        if li = ['-', '1'] ∧ ic = ['-', '1'] then
          ci := 2
          ri := '*' :: ri
        else
          if ic = ['-', '1'] ∧
              li ∉ [[], ['+'], ['-'], ['*'], ['/'], ['^'], ['('], ['P'], ['C'],
                ['n'], ['s'], ['h'], ['g']] then
            ri := '*' :: ri
          if li = ['-', '1'] ∧ ic ∉ [['+'], ['-'], ['*'], ['/'], ['^'], [')'], ['P'], ['C']] then
            ri := '*' :: ri
            ci := 2
        if strdt = 2 then
          strdt := 1
          if ic = ['h'] then
            fdt := 1
            fjump := 1
          else if ic ≠ ['('] then
            if ic ∈ [['+'], ['-']] then
              usc := 1
            ri := '(' :: ri
            liststr := liststr + 1
        if fjump = 0 then
          if fdt = 1 then
            fdt := 0
            if ic ≠ ['('] then
              if ic ∈ [['+'], ['-']] then
                usc := 1
              if li ∉ [['C'], ['P']] then
                ri := '(' :: ri
                liststr := liststr + 1
        else
          fjump := 0
        if usc = 1 ∧ ic ∉ [['+'], ['-']] then
          usc := 0
          if ic = ['('] then
            kh := 1
        if kh = 1 then
          if ic = ['('] then
            khl0 := khl0 + 1
          else if ic = [')'] then
            khl0 := khl0 - 1
          if kh = 0 then
            -- dead in the source (`kh` is 1 on this path); kept verbatim
            kh := 0
            ri := List.replicate liststr ')' ++ ri
            liststr := 0
            strdt := 0
        else if usc = 0 then
          let finish : List (List Char) :=
            if logdt = 1 then [['+'], ['-'], ['*'], ['/'], ['C'], ['P'], ['^']]
            else [['+'], ['-'], ['*'], ['/'], ['C'], ['P'], [','], ['^']]
          if strdt = 1 ∧ ic ∈ finish then
            ri := List.replicate liststr ')' ++ ri
            liststr := 0
            strdt := 0
        if strdt = 1 ∧ ci = 1 then
          ri := List.replicate liststr ')' ++ ri
          liststr := 0
          strdt := 0
          logdt := 0
        if strdt = 1 ∧ ci = 2 then
          ri := List.replicate liststr ')' ++ ri
          liststr := 0
          strdt := 0
          logdt := 0
        if ic ∈ lettersL then
          fstr := fstr ++ ic
        else if ic = ['P'] ∨ ic = ['C'] ∨ ic = ['^'] then
          fdt := 1
          strdt := 1
          liststr := 1
        if fstr ∈ bigFnL then
          fstr := []
          legal := []
          legaldt := 2
          fdt := 1
          strdt := 1
        else if fstr ∈ [['s', 'i', 'n'], ['c', 'o', 's'], ['t', 'a', 'n']] then
          fstr := []
          legal := []
          legaldt := 2
          strdt := 2
        else if fstr = ['l', 'o', 'g'] then
          fstr := []
          if strdt = 1 then
            logdt := 1
        if legaldt = 2 then
          legaldt := 0
        else if fjump = 0 then
          if ic ∈ lettersL then
            legal := legal ++ ic
            legaldt := 1
          else if legaldt = 1 then
            if legal ∉ legalFnL then
              return ⟨['D', 'C'], fact1, fi1, fc1, fp1⟩
            else
              legaldt := 0
              legal := []
        out := out ++ ri
        if ic = ['!'] ∨ ic = ['^'] ∨ ic = ['C'] ∨ ic = ['P'] then
          let mut sn : List Char := []
          if ic = ['!'] then
            sn := ['(', 't', 'c', 'a', 'f']
            fact1 := 1
          if ic = ['^'] then
            sn := ['(', 'i', 'f']
            fi1 := 1
          else if ic = ['C'] then
            sn := ['(', 'c', 'f']
            fc1 := 1
          else if ic = ['P'] then
            sn := ['(', 'p', 'f']
            fp1 := 1
          out := out.reverse
          let mut stl0 : ℕ := 0
          let mut stl1 : ℤ := 0
          let mut stdt : ℕ := 0
          let mut stfdt : ℕ := 0
          let mut stout : List Char := []
          for sti0 in out do
            let mut sti : List Char := [sti0]
            if stdt = 0 then
              if sti0 = ch ∧ stl0 = 0 then
                stl0 := 1
                if sti0 = '!' then
                  sti := [')']
                else
                  sti := [',']
              else if stl0 = 1 then
                if sti0 = ')' then
                  stl0 := 2
                  stl1 := 1
                else
                  stl0 := 3
              else if stl0 = 2 then
                if sti0 = ')' then
                  stl1 := stl1 + 1
                else if sti0 = '(' then
                  stl1 := stl1 - 1
                if stl1 = 0 then
                  stdt := 1
                  stfdt := 1
              else if stl0 = 3 then
                if sti0 ∈ ['+', '-', '*', '/', '(', ','] then
                  stdt := 1
                  sti := sn ++ sti
            else if stdt = 1 ∧ stfdt = 1 then
              if sti0 ∉ ['s', 'i', 'n', 'c', 'o', 't', 'a', 'h', 'r', 'l', 'g', 'b', 'f', 'p'] then
                sti := sn ++ sti
                stfdt := 0
            stout := stout ++ sti
          if stdt = 0 ∨ stfdt = 1 then
            stout := stout ++ sn
          out := stout.reverse
        li := ic
        ci := 0
  -- out cannot spell "DC" after a completed pass ('D' is not in the
  -- alphabet), so this is the source's `if out != "DC"` branch.
  if legaldt = 1 ∧ legal ∉ legalFnL then
    return ⟨['D', 'C'], fact1, fi1, fc1, fp1⟩
  if strdt = 1 then
    out := out ++ List.replicate liststr ')'
    liststr := 0
  if l0 ≠ 0 then
    if l0 > 0 then
      out := out ++ List.replicate l0.toNat ')'
    else
      out := List.replicate (-l0).toNat '(' ++ out
  let tout := replaceSub ['f', 'i'] ['p', 'o', 'w']
    (replaceSub eStr ['e'] (replaceSub piStr ['p', 'i'] out))
  return ⟨tout, fact1, fi1, fc1, fp1⟩

/-! ## Evaluation lemmas -/

/-- A left fold of multiplications is the product of the mapped list. -/
theorem foldl_mul_map (g : ℕ → ℤ) :
    ∀ (l : List ℕ) (a : ℤ), l.foldl (fun out i => out * g i) a = a * (l.map g).prod := by
  intro l
  induction l with
  | nil => simp
  | cons j t ih =>
    intro a
    simp only [List.foldl_cons, List.map_cons, List.prod_cons, ih]
    ring

/-- The descending product `m * (m-1) * ... * 1` as a factorial. -/
theorem listProdDesc (m : ℕ) :
    ((List.range m).map (fun i : ℕ => (m : ℤ) - (i : ℤ))).prod = (Nat.factorial m : ℤ) := by
  induction m with
  | zero => simp
  | succ k ih =>
    rw [List.range_succ_eq_map]
    simp only [List.map_cons, List.map_map, List.prod_cons]
    have hcong : (List.range k).map ((fun i : ℕ => ((k + 1 : ℕ) : ℤ) - (i : ℤ)) ∘ Nat.succ) =
        (List.range k).map (fun i : ℕ => (k : ℤ) - (i : ℤ)) := by
      apply List.map_congr_left
      intro i _
      simp only [Function.comp_apply, Nat.succ_eq_add_one]
      push_cast
      ring
    rw [hcong, ih, Nat.factorial_succ]
    push_cast
    ring

/-- The iterative product of `fact` computes the factorial. -/
theorem factLoop_natCast (n : ℕ) : factLoop (n : ℤ) = (Nat.factorial n : ℤ) := by
  cases n with
  | zero => norm_num [factLoop]
  | succ m =>
    unfold factLoop
    have hne : ((m + 1 : ℕ) : ℤ) ≠ 0 := by positivity
    rw [if_neg (by exact_mod_cast hne)]
    rw [foldl_mul_map (fun i : ℕ => ((m + 1 : ℕ) : ℤ) - ((i : ℤ) + 1))]
    have hcong : (List.range (((m + 1 : ℕ) : ℤ).toNat - 1)).map
          (fun i : ℕ => ((m + 1 : ℕ) : ℤ) - ((i : ℤ) + 1)) =
        (List.range m).map (fun i : ℕ => (m : ℤ) - (i : ℤ)) := by
      have hr : ((m + 1 : ℕ) : ℤ).toNat - 1 = m := by omega
      rw [hr]
      apply List.map_congr_left
      intro i _
      push_cast
      ring
    rw [hcong, listProdDesc, Nat.factorial_succ]
    push_cast
    ring

/-- `fact` on a natural number returns its factorial. -/
theorem fact_natCast (n : ℕ) : fact (F.num (n : ℝ)) = F.num ((Nat.factorial n : ℕ) : ℝ) := by
  have hround : pyround ((n : ℕ) : ℝ) 13 = ((n : ℕ) : ℝ) := by
    have h := pyround_intCast (n : ℤ) 13
    push_cast at h
    exact h
  have hmod : pymod ((n : ℕ) : ℝ) 1 = 0 := by
    have h := pymod_intCast_one (n : ℤ)
    push_cast at h
    exact h
  have hcond : ¬ (F.pne (F.mod (F.num (pyround ((n : ℕ) : ℝ) 13)) (F.num 1)) (F.num 0) ∨
      F.lt (F.num (pyround ((n : ℕ) : ℝ) 13)) (F.num 0) ∨
      nan (F.num (pyround ((n : ℕ) : ℝ) 13))) := by
    rw [hround]
    simp only [F.mod_num_num _ 1 one_ne_zero, hmod, F.pne_num_num, F.lt_num_num, nan_num,
      or_false, ne_eq, not_true_eq_false, false_or, not_lt]
    exact Nat.cast_nonneg n
  simp only [fact, F.round_num, hround]
  rw [if_neg hcond]
  have hfl : ⌊((n : ℕ) : ℝ)⌋ = (n : ℤ) := by
    push_cast
    exact Int.floor_intCast n
  simp only [hfl, factLoop_natCast]
  norm_cast

/-- The exact rational value of the source's 11-term `pi`. -/
theorem picode_val : picode =
    (128420317169303537407463602023077441157779788599685107342715941276414836 : ℝ) /
      40877456541847307290845910488017348045197400700883450408458709716796875 := by
  have h11 : List.range 11 = [0, 1, 2, 3, 4, 5, 6, 7, 8, 9, 10] := rfl
  unfold picode
  rw [h11]
  simp only [List.foldl_cons, List.foldl_nil]
  norm_num

/-- Coarse bounds on the source's `pi`. -/
theorem picode_bounds : 3.14 < picode ∧ picode < 3.1416 := by
  rw [picode_val]
  norm_num

theorem picode_pos : 0 < picode := by
  have h := picode_bounds.1
  norm_num at h
  linarith

/-- The exact rational value of the source's 18-term `e`. -/
theorem eF_val : eF = F.num ((7437374403113 : ℝ) / 2736057139200) := by
  have h18 : List.range 18 = [0, 1, 2, 3, 4, 5, 6, 7, 8, 9, 10, 11, 12, 13, 14, 15, 16, 17] := rfl
  unfold eF
  rw [h18]
  simp only [List.foldl_cons, List.foldl_nil, fact_natCast]
  have hd : ∀ k : ℕ, F.div (F.num 1) (F.num ((Nat.factorial k : ℕ) : ℝ)) =
      F.num (1 / ((Nat.factorial k : ℕ) : ℝ)) :=
    fun k => F.div_num_num _ _ (by exact_mod_cast (Nat.factorial_pos k).ne')
  simp only [hd, F.add_num_num]
  congr 1
  norm_num [Nat.factorial]

/-- A left fold of `F`-additions starting from a finite value stays finite
and sums the mapped terms. -/
theorem foldl_add_num (f : F → ℕ → F) (g : ℕ → ℝ)
    (hf : ∀ (a : ℝ) (i : ℕ), f (F.num a) i = F.num (a + g i)) :
    ∀ (l : List ℕ) (a : ℝ), l.foldl f (F.num a) = F.num (a + (l.map g).sum) := by
  intro l
  induction l with
  | nil =>
    intro a
    simp only [List.foldl_nil, List.map_nil, List.sum_nil, add_zero]
  | cons i t ih =>
    intro a
    simp only [List.foldl_cons, List.map_cons, List.sum_cons, hf, ih]
    congr 1
    ring

/-- The real value of the 16-term `sin` series of the source. -/
noncomputable def sinSeries (t : ℝ) : ℝ :=
  ((List.range 16).map
    (fun i : ℕ => (-1 : ℝ) ^ i * t ^ (2 * i + 1) / ((Nat.factorial (2 * i + 1) : ℕ) : ℝ))).sum

/-- The real value of the 16-term `cos` series of the source. -/
noncomputable def cosSeries (t : ℝ) : ℝ :=
  ((List.range 16).map
    (fun i : ℕ => (-1 : ℝ) ^ i * t ^ (2 * i) / ((Nat.factorial (2 * i) : ℕ) : ℝ))).sum

theorem sin_term (t a : ℝ) (i : ℕ) :
    F.add (F.num a) (F.div (F.mul (F.num ((-1 : ℝ) ^ i)) (F.pow (F.num t) (2 * i + 1)))
      (fact (F.num ((2 * i + 1 : ℕ) : ℝ)))) =
    F.num (a + (-1 : ℝ) ^ i * t ^ (2 * i + 1) / ((Nat.factorial (2 * i + 1) : ℕ) : ℝ)) := by
  rw [fact_natCast, F.pow_num, F.mul_num_num,
    F.div_num_num _ _ (by exact_mod_cast (Nat.factorial_pos (2 * i + 1)).ne'), F.add_num_num]

theorem cos_term (t a : ℝ) (i : ℕ) :
    F.add (F.num a) (F.div (F.mul (F.num ((-1 : ℝ) ^ i)) (F.pow (F.num t) (2 * i)))
      (fact (F.num ((2 * i : ℕ) : ℝ)))) =
    F.num (a + (-1 : ℝ) ^ i * t ^ (2 * i) / ((Nat.factorial (2 * i) : ℕ) : ℝ)) := by
  rw [fact_natCast, F.pow_num, F.mul_num_num,
    F.div_num_num _ _ (by exact_mod_cast (Nat.factorial_pos (2 * i)).ne'), F.add_num_num]

/-- `sgn` of a positive finite value is `1`. -/
theorem sgn_num_pos {t : ℝ} (h : 0 < t) : sgn (F.num t) = F.num 1 := by
  unfold sgn
  rw [if_neg (nan_num t), if_neg (by simpa using ne_of_gt h),
    F.abs_num, abs_of_pos h, F.div_num_num _ _ (ne_of_gt h), div_self (ne_of_gt h)]

/-- `sgn` of a negative finite value is `-1`. -/
theorem sgn_num_neg {t : ℝ} (h : t < 0) : sgn (F.num t) = F.num (-1) := by
  unfold sgn
  rw [if_neg (nan_num t), if_neg (by simpa using ne_of_lt h),
    F.abs_num, abs_of_neg h, F.div_num_num _ _ (ne_of_lt h)]
  congr 1
  rw [neg_div, div_self (ne_of_lt h)]

/-- `induce` is the identity on `(-pi, pi]`. -/
theorem induce_id {t : ℝ} (h1 : -picode < t) (h2 : t ≤ picode) : induce (F.num t) = F.num t := by
  have hpi : 0 < picode := picode_pos
  have hub : picode < 3.1416 := picode_bounds.2
  unfold induce
  rw [if_neg]
  · rcases le_or_lt 0 t with ht | ht
    · have hfl : ⌊t / (2 * picode)⌋ = 0 := by
        rw [Int.floor_eq_zero_iff]
        constructor
        · positivity
        · rw [div_lt_one (by positivity)]
          linarith
      have hr : pymod t (2 * picode) = t := by
        unfold pymod
        rw [hfl]
        push_cast
        ring
      simp only [hr]
      rw [if_neg (by push_neg; intro _; linarith), if_neg (by push_neg; intro h; linarith)]
    · have h2pi : (0 : ℝ) < 2 * picode := by positivity
      have hfl : ⌊t / (2 * picode)⌋ = -1 := by
        have hub' : t / (2 * picode) < 0 := div_neg_of_neg_of_pos ht h2pi
        have hlb : (-1 : ℝ) ≤ t / (2 * picode) := by
          rw [le_div_iff h2pi]
          nlinarith
        rw [Int.floor_eq_iff]
        constructor
        · exact_mod_cast hlb
        · push_cast
          linarith
      have hr : pymod t (2 * picode) = t + 2 * picode := by
        unfold pymod
        rw [hfl]
        push_cast
        ring
      simp only [hr]
      rw [if_pos ⟨by linarith, by linarith⟩]
      congr 1
      ring
  · simp only [F.lt_num_num, nan_num, or_false]
    push_neg
    norm_num
    linarith

open Classical in
/-- `sin` on a finite value in `(0, pi)` is the absolute value of the
16-term series (`sgn` of the argument is `1` and the quadrant correction
takes the `abs` branch). -/
theorem sin_num_eval {t : ℝ} (h0 : 0 < t) (hlt : t < picode) :
    sin (F.num t) = F.num |sinSeries t| := by
  have habs : F.abs (F.num t) = F.num t := by
    rw [F.abs_num, abs_of_pos h0]
  have hx : induce (F.abs (F.num t)) = F.num t := by
    rw [habs, induce_id (by linarith [picode_pos]) (le_of_lt hlt)]
  simp only [sin]
  rw [hx, habs]
  rw [if_neg (nan_num t)]
  rw [if_neg (show ¬ (F.peq (F.num t) (F.num 0) ∨ F.peq (F.num t) (F.num picode)) by
    simp only [F.peq_num_num]
    push_neg
    exact ⟨ne_of_gt h0, ne_of_lt hlt⟩)]
  rw [foldl_add_num _ _ (sin_term t) (List.range 16) 0]
  rw [if_pos (show F.lt (F.num 0) (F.num t) ∧ F.lt (F.num t) (F.num picode) from ⟨h0, hlt⟩)]
  rw [sgn_num_pos h0, F.abs_num, F.mul_num_num, one_mul, zero_add]
  rfl

open Classical in
/-- `sin` hits the exact-zero branch at the source's `pi`. -/
theorem sin_picode : sin (F.num picode) = F.num 0 := by
  have hpi := picode_pos
  have habs : F.abs (F.num picode) = F.num picode := by
    rw [F.abs_num, abs_of_pos hpi]
  have hx : induce (F.abs (F.num picode)) = F.num picode := by
    rw [habs, induce_id (by linarith) (le_refl _)]
  simp only [sin]
  rw [hx, habs]
  rw [if_neg (nan_num picode)]
  rw [if_pos (Or.inr (show F.peq (F.num picode) (F.num picode) from rfl))]
  rw [sgn_num_pos hpi, F.mul_num_num]
  norm_num

open Classical in
/-- `cos` hits the exact-zero branch at the source's `pi/2`. -/
theorem cos_half_picode : cos (F.num (picode / 2)) = F.num 0 := by
  have hpi := picode_pos
  have habs : F.abs (F.num (picode / 2)) = F.num (picode / 2) := by
    rw [F.abs_num, abs_of_pos (by linarith)]
  have hx : induce (F.abs (F.num (picode / 2))) = F.num (picode / 2) := by
    rw [habs, induce_id (by linarith) (by linarith)]
  simp only [cos]
  rw [hx]
  rw [if_neg (nan_num (picode / 2))]
  rw [if_pos (show F.peq (F.num (picode / 2)) (F.num (picode / 2)) from rfl)]

open Classical in
/-- `cos` at the source's `pi`: the series with the negative quadrant
correction. -/
theorem cos_picode_eval : cos (F.num picode) = F.num (-|cosSeries picode|) := by
  have hpi := picode_pos
  have habs : F.abs (F.num picode) = F.num picode := by
    rw [F.abs_num, abs_of_pos hpi]
  have hx : induce (F.abs (F.num picode)) = F.num picode := by
    rw [habs, induce_id (by linarith) (le_refl _)]
  simp only [cos]
  rw [hx]
  rw [if_neg (nan_num picode)]
  rw [if_neg (show ¬ F.peq (F.num picode) (F.num (picode / 2)) by
    simp only [F.peq_num_num]
    intro h
    linarith)]
  rw [foldl_add_num _ _ (cos_term picode) (List.range 16) 0]
  rw [if_neg (show ¬ (F.le (F.num 0) (F.num picode) ∧ F.lt (F.num picode) (F.num (picode / 2))) by
    rintro ⟨-, h2⟩
    have h2' : picode < picode / 2 := h2
    linarith)]
  rw [zero_add, F.abs_num, F.neg_num]
  rfl

/-- The `sin` series at `pi/3` is comfortably above `1/2` (its value is
about `0.866`). -/
theorem sinSeries_third_gt : 1 / 2 < sinSeries (picode / 3) := by
  have h16 : List.range 16 = [0, 1, 2, 3, 4, 5, 6, 7, 8, 9, 10, 11, 12, 13, 14, 15] := rfl
  unfold sinSeries
  rw [h16]
  simp only [List.map_cons, List.map_nil, List.sum_cons, List.sum_nil]
  rw [picode_val]
  norm_num [Nat.factorial]

/-- The `cos` series at `pi` is below `-1/2` (its value is about `-1`). -/
theorem cosSeries_picode_lt : cosSeries picode < -(1 / 2) := by
  have h16 : List.range 16 = [0, 1, 2, 3, 4, 5, 6, 7, 8, 9, 10, 11, 12, 13, 14, 15] := rfl
  unfold cosSeries
  rw [h16]
  simp only [List.map_cons, List.map_nil, List.sum_cons, List.sum_nil]
  rw [picode_val]
  norm_num [Nat.factorial]

theorem roundHalfEven_ge_one {y : ℝ} (hy : 1 ≤ y) : 1 ≤ roundHalfEven y := by
  unfold roundHalfEven
  have h1 : (1 : ℤ) ≤ ⌊y⌋ := Int.le_floor.mpr (by exact_mod_cast hy)
  split_ifs with h h2
  · omega
  · omega
  · rw [round_eq]
    have h2 : ⌊y⌋ ≤ ⌊y + 1 / 2⌋ := Int.floor_le_floor (by linarith)
    omega

theorem roundHalfEven_zero : roundHalfEven 0 = 0 := by
  unfold roundHalfEven
  rw [Int.fract_zero]
  norm_num

theorem pyround_zero (d : ℕ) : pyround 0 d = 0 := by
  unfold pyround
  rw [zero_mul, roundHalfEven_zero]
  norm_num

/-- A value above `1/2` does not round to zero at 10 digits. -/
theorem pyround_ten_ne_zero {s : ℝ} (h : 1 / 2 < s) : pyround s 10 ≠ 0 := by
  unfold pyround
  have h1 : (1 : ℝ) ≤ s * 10 ^ 10 := by nlinarith
  have h2 := roundHalfEven_ge_one h1
  have h3 : (0 : ℝ) < (roundHalfEven (s * 10 ^ 10) : ℝ) := by
    exact_mod_cast lt_of_lt_of_le zero_lt_one h2
  exact ne_of_gt (div_pos h3 (by positivity))

/-- `pyround` of `1/3` at 10 digits: `0.3333333333`, which is not
integral, so the `fi` search does not stop on the integrality test. -/
theorem pyround_third : pyround (1 / 3 : ℝ) 10 = 3333333333 / 10 ^ 10 := by
  unfold pyround
  have hfl : ⌊(1 / 3 : ℝ) * 10 ^ 10⌋ = 3333333333 := by
    rw [Int.floor_eq_iff]
    constructor
    · norm_num
    · norm_num
  have hfr : Int.fract ((1 / 3 : ℝ) * 10 ^ 10) ≠ 1 / 2 := by
    rw [Int.fract, hfl]
    norm_num
  unfold roundHalfEven
  rw [if_neg hfr, round_eq]
  have : ⌊(1 / 3 : ℝ) * 10 ^ 10 + 1 / 2⌋ = 3333333333 := by
    rw [Int.floor_eq_iff]
    constructor
    · norm_num
    · norm_num
  rw [this]
  norm_num

open Classical in
/-- The `fi` periodicity search at exponent `1/3` stops at `k = 1`, where
the rotation is exactly `pi`, with `T = sgn(cos(pi)) = -1`. -/
theorem fiLoop_third : fiLoop (1 / 3) 0 = F.num (-1) := by
  have hS := sinSeries_third_gt
  have hC := cosSeries_picode_lt
  have hpi := picode_pos
  have e0 : (1 / 3 : ℝ) * picode + 2 * (1 / 3) * ((0 : ℕ) : ℝ) * picode = picode / 3 := by
    push_cast
    ring
  have e1 : (1 / 3 : ℝ) * picode + 2 * (1 / 3) * ((1 : ℕ) : ℝ) * picode = picode := by
    push_cast
    ring
  have hsin0 : sin (F.num ((1 / 3 : ℝ) * picode + 2 * (1 / 3) * ((0 : ℕ) : ℝ) * picode)) =
      F.num |sinSeries (picode / 3)| := by
    rw [e0]
    exact sin_num_eval (by positivity) (by linarith)
  have hsin1 : sin (F.num ((1 / 3 : ℝ) * picode + 2 * (1 / 3) * ((1 : ℕ) : ℝ) * picode)) =
      F.num 0 := by
    rw [e1]
    exact sin_picode
  have hcos1 : cos (F.num ((1 / 3 : ℝ) * picode + 2 * (1 / 3) * ((1 : ℕ) : ℝ) * picode)) =
      F.num (-|cosSeries picode|) := by
    rw [e1]
    exact cos_picode_eval
  have habs : |sinSeries (picode / 3)| = sinSeries (picode / 3) :=
    abs_of_pos (by linarith)
  rw [fiLoop]
  rw [if_neg (by simp)]
  rw [if_neg (by norm_num)]
  rw [hsin0, habs, F.round_num]
  rw [if_neg (show ¬ F.peq (F.num (pyround (sinSeries (picode / 3)) 10)) (F.num 0) by
    simp only [F.peq_num_num]
    exact pyround_ten_ne_zero hS)]
  rw [fiLoop]
  rw [if_neg (show ¬ ((0 + 1 : ℕ) ≠ 0 ∧ pymod (pyround ((1 / 3) * ((0 + 1 : ℕ) : ℝ)) 10) 1 = 0) by
    rintro ⟨-, hmod⟩
    rw [show (((0 + 1 : ℕ) : ℝ)) = 1 by norm_num, mul_one, pyround_third] at hmod
    unfold pymod at hmod
    rw [show ⌊(3333333333 / 10 ^ 10 : ℝ) / 1⌋ = 0 by
      rw [Int.floor_eq_iff] <;> norm_num] at hmod
    norm_num at hmod)]
  rw [if_neg (by norm_num)]
  rw [show ((0 + 1 : ℕ) : ℝ) = ((1 : ℕ) : ℝ) by norm_num]
  rw [hsin1, F.round_num, pyround_zero]
  rw [if_pos (show F.peq (F.num 0) (F.num 0) from rfl)]
  rw [hcos1]
  exact sgn_num_neg (by
    have h : 0 < |cosSeries picode| := abs_pos.mpr (by linarith)
    linarith)

/-- Real powers with reciprocal-of-natural exponents invert powers. -/
theorem rpow_inv_of_pow_eq {a b : ℝ} {n : ℕ} (hb : 0 ≤ b) (h : b ^ n = a) (hn : n ≠ 0) :
    a ^ (((n : ℝ))⁻¹) = b := by
  rw [← h, ← Real.rpow_natCast b n, ← Real.rpow_mul hb,
    mul_inv_cancel₀ (by exact_mod_cast hn), Real.rpow_one]

theorem rpow_216_third : (216 : ℝ) ^ ((1 : ℝ) / 3) = 6 := by
  rw [one_div]
  exact rpow_inv_of_pow_eq (by norm_num) (by norm_num) (by norm_num : (3 : ℕ) ≠ 0)

theorem rpow_5184_half : (5184 : ℝ) ^ ((1 : ℝ) / 2) = 72 := by
  rw [show ((1 : ℝ) / 2) = ((2 : ℕ) : ℝ)⁻¹ by norm_num]
  exact rpow_inv_of_pow_eq (by norm_num) (by norm_num) (by norm_num)

theorem rpow_16_half : (16 : ℝ) ^ ((1 : ℝ) / 2) = 4 := by
  rw [show ((1 : ℝ) / 2) = ((2 : ℕ) : ℝ)⁻¹ by norm_num]
  exact rpow_inv_of_pow_eq (by norm_num) (by norm_num) (by norm_num)

theorem rpow_3_half : (3 : ℝ) ^ ((1 : ℝ) / 2) = Real.sqrt 3 :=
  (Real.sqrt_eq_rpow 3).symm

open Classical in
/-- `fi(-216, 1/3) = -6`: the periodicity search returns `T = -1` and
`pow(216, 1/3) = 6`. -/
theorem fi_neg216 : fi (F.num (-216)) (F.num (1 / 3)) = F.num (-6) := by
  unfold fi
  rw [if_neg (show ¬ ((F.peq (F.num (-216)) (F.num 0) ∧ F.le (F.num (1 / 3)) (F.num 0)) ∨
      nan (F.num (-216)) ∨ nan (F.num (1 / 3))) by
    simp only [F.peq_num_num, F.le_num_num, nan_num, or_false]
    rintro ⟨h, -⟩
    norm_num at h)]
  rw [if_neg (show ¬ F.lt (F.num 0) (F.num (-216)) by
    simp only [F.lt_num_num]
    norm_num)]
  rw [if_neg (show ¬ F.peq (F.num (-216)) (F.num 0) by
    simp only [F.peq_num_num]
    norm_num)]
  show (let T := fiLoop (1 / 3) 0
    if F.pne T (F.num 10) then F.mul T (F.rpow (F.num (-(-216))) (F.num (1 / 3))) else F.nan) =
    F.num (-6)
  rw [fiLoop_third]
  rw [if_pos (show F.pne (F.num (-1)) (F.num 10) by
    simp only [F.pne_num_num]
    norm_num)]
  rw [show (-(-216) : ℝ) = 216 by norm_num, F.rpow_num_num, rpow_216_third, F.mul_num_num]
  norm_num

open Classical in
/-- `fi(0, n) = 0` for positive `n`. -/
theorem fi_zero_third : fi (F.num 0) (F.num (1 / 3)) = F.num 0 := by
  unfold fi
  rw [if_neg (show ¬ ((F.peq (F.num 0) (F.num 0) ∧ F.le (F.num (1 / 3)) (F.num 0)) ∨
      nan (F.num (0 : ℝ)) ∨ nan (F.num (1 / 3 : ℝ))) by
    simp only [F.peq_num_num, F.le_num_num, nan_num, or_false]
    rintro ⟨-, h⟩
    norm_num at h)]
  rw [if_neg (show ¬ F.lt (F.num 0) (F.num 0) by
    simp only [F.lt_num_num]
    norm_num)]
  rw [if_pos (show F.peq (F.num (0 : ℝ)) (F.num 0) from rfl)]

open Classical in
/-- The cubic `x^3 - 8` through `f3`: the `DT > 0` branch with
`Y1 = fi(0, 1/3) = 0` and `Y2 = fi(-216, 1/3) = -6`, giving the real root
`2` and the conjugate pair `-1 ± sqrt(3)·i`. -/
theorem f3_at_cubic (fuel : ℕ) :
    f3 fuel (F.num 1) (F.num 0) (F.num 0) (F.num (-8)) 1 0 =
      some (Sum.inl [F.num 2, F.num (-1), F.num (Real.sqrt 3), F.num (-(Real.sqrt 3))]) := by
  unfold f3
  rw [if_neg (by simp)]
  norm_num [F.div_num_num, rpow_5184_half, rpow_3_half, fi_zero_third, fi_neg216]

/-- The source's `pow(dt, 0.5)` is the square root. -/
theorem rpow_half_sqrt (x : ℝ) : x ^ ((0.5 : ℝ)) = Real.sqrt x := by
  rw [show (0.5 : ℝ) = 1 / 2 by norm_num, ← Real.sqrt_eq_rpow]

open Classical in
/-- `f2` with positive discriminant: the two real roots. -/
theorem f2_G_pos {a b c : ℝ} (ha : a ≠ 0) (h : 0 < b ^ 2 - 4 * a * c) :
    f2 (F.num a) (F.num b) (F.num c) 1 0 = some (Sum.inl
      [F.num ((-b + Real.sqrt (b ^ 2 - 4 * a * c)) / (2 * a)),
       F.num ((-b - Real.sqrt (b ^ 2 - 4 * a * c)) / (2 * a))]) := by
  have h2a : (2 : ℝ) * a ≠ 0 := mul_ne_zero two_ne_zero ha
  unfold f2
  rw [if_pos rfl]
  rw [if_neg (by simp)]
  simp only [F.pow_num, F.mul_num_num, F.sub_num_num, F.neg_num, F.rpow_num_num,
    rpow_half_sqrt, F.add_num_num]
  rw [if_pos (show F.lt (F.num 0) (F.num (b ^ 2 - 4 * a * c)) from h)]
  rw [F.div_num_num _ _ h2a, F.div_num_num _ _ h2a]

open Classical in
/-- `f2` with zero discriminant: the repeated root. -/
theorem f2_G_zero {a b c : ℝ} (ha : a ≠ 0) (h : b ^ 2 - 4 * a * c = 0) :
    f2 (F.num a) (F.num b) (F.num c) 1 0 = some (Sum.inl [F.num (-b / (2 * a))]) := by
  have h2a : (2 : ℝ) * a ≠ 0 := mul_ne_zero two_ne_zero ha
  unfold f2
  rw [if_pos rfl]
  rw [if_neg (by simp)]
  simp only [F.pow_num, F.mul_num_num, F.sub_num_num, F.neg_num, F.rpow_num_num,
    rpow_half_sqrt, F.add_num_num]
  rw [if_neg (show ¬ F.lt (F.num 0) (F.num (b ^ 2 - 4 * a * c)) by
    simp only [F.lt_num_num]
    linarith)]
  rw [if_pos (show F.peq (F.num (b ^ 2 - 4 * a * c)) (F.num 0) from h)]
  rw [F.div_num_num _ _ h2a]

open Classical in
/-- `f2` with negative discriminant: real part then `±` imaginary part. -/
theorem f2_G_neg {a b c : ℝ} (ha : a ≠ 0) (h : b ^ 2 - 4 * a * c < 0) :
    f2 (F.num a) (F.num b) (F.num c) 1 0 = some (Sum.inl
      [F.num (-b / (2 * a)),
       F.num (Real.sqrt (-(b ^ 2 - 4 * a * c)) / (2 * a)),
       F.num (-(Real.sqrt (-(b ^ 2 - 4 * a * c)) / (2 * a)))]) := by
  have h2a : (2 : ℝ) * a ≠ 0 := mul_ne_zero two_ne_zero ha
  unfold f2
  rw [if_pos rfl]
  rw [if_neg (by simp)]
  simp only [F.pow_num, F.mul_num_num, F.sub_num_num, F.neg_num, F.rpow_num_num,
    rpow_half_sqrt, F.add_num_num]
  rw [if_neg (show ¬ F.lt (F.num 0) (F.num (b ^ 2 - 4 * a * c)) by
    simp only [F.lt_num_num]
    linarith)]
  rw [if_neg (show ¬ F.peq (F.num (b ^ 2 - 4 * a * c)) (F.num 0) by
    simp only [F.peq_num_num]
    linarith)]
  rw [F.div_num_num _ _ h2a, F.div_num_num _ _ h2a, F.neg_num]

open Classical in
/-- `f2` queried with `z == 1`: the vertex `-b/(2a)`. -/
theorem f2_D {a b c : ℝ} (ha : a ≠ 0) :
    f2 (F.num a) (F.num b) (F.num c) 0 1 = some (Sum.inr (F.num (-b / (2 * a)))) := by
  have h2a : (2 : ℝ) * a ≠ 0 := mul_ne_zero two_ne_zero ha
  unfold f2
  rw [if_neg (show ¬ (0 : ℤ) = 1 by norm_num), if_pos rfl]
  rw [if_neg (by simp)]
  simp only [F.neg_num, F.mul_num_num]
  rw [F.div_num_num _ _ h2a]

/-! ### NaN propagation and domain guards (claim C1) -/

open Classical in
theorem induce_nan : induce F.nan = F.nan := by
  unfold induce
  rw [if_pos (Or.inr nan_nan)]

open Classical in
theorem induce_big {t : ℝ} (h : 10 ^ 10 < t) : induce (F.num t) = F.nan := by
  unfold induce
  rw [if_pos (Or.inl (show F.lt (F.num (10 ^ 10)) (F.num t) from h))]

open Classical in
theorem sin_nan : sin F.nan = F.nan := by
  simp only [sin, F.abs_nan, induce_nan]
  rw [if_pos nan_nan]

open Classical in
theorem sin_big {t : ℝ} (h : 10 ^ 10 < |t|) : sin (F.num t) = F.nan := by
  simp only [sin, F.abs_num, induce_big h]
  rw [if_pos nan_nan]

open Classical in
theorem cos_nan : cos F.nan = F.nan := by
  simp only [cos, F.abs_nan, induce_nan]
  rw [if_pos nan_nan]

open Classical in
theorem cos_big {t : ℝ} (h : 10 ^ 10 < |t|) : cos (F.num t) = F.nan := by
  simp only [cos, F.abs_num, induce_big h]
  rw [if_pos nan_nan]

open Classical in
theorem tan_nan : tan F.nan = F.nan := by
  simp only [tan, sin_nan, cos_nan]
  rw [if_pos (Or.inr (Or.inl nan_nan))]

open Classical in
theorem tan_cos_zero {x : F} (h : F.peq (cos x) (F.num 0)) : tan x = F.nan := by
  simp only [tan]
  rw [if_pos (Or.inl h)]

open Classical in
theorem arcsin_guard {x : F} (fuel : ℕ) (h : F.lt (F.num 1) (F.abs x) ∨ nan x) :
    arcsin fuel x = some F.nan := by
  unfold arcsin
  rw [if_pos h]

open Classical in
theorem arccos_guard {x : F} (fuel : ℕ) (h : F.lt (F.num 1) (F.abs x) ∨ nan x) :
    arccos fuel x = some F.nan := by
  unfold arccos
  rw [if_pos h]

open Classical in
theorem arctan_guard {x : F} (fuel : ℕ)
    (h : F.le (tan (F.num (picode / 2 - 10 ^ (-15 : ℤ)))) (F.abs x) ∨ nan x) :
    arctan fuel x = some F.nan := by
  unfold arctan
  rw [if_pos h]

open Classical in
theorem ln_guard {x : F} (fuel : ℕ)
    (h : F.le (F.pow eF 600) (F.abs x) ∨ F.le x (F.num 0) ∨ nan x) :
    ln fuel x = some F.nan := by
  unfold ln
  rw [if_pos h]

open Classical in
theorem lg_guard {x : F} (fuel : ℕ) (h : nan x ∨ F.le x (F.num 0)) :
    lg fuel x = some F.nan := by
  unfold lg
  rw [if_pos h]

open Classical in
theorem log_guard {x y : F} (fuel : ℕ)
    (h : nan x ∨ nan y ∨ F.peq x (F.num 1) ∨ F.le x (F.num 0) ∨ F.le y (F.num 0)) :
    log fuel x y = some F.nan := by
  unfold log
  rw [if_pos h]

open Classical in
theorem fact_guard {x : F}
    (h : F.pne (F.mod (F.round x 13) (F.num 1)) (F.num 0) ∨
      F.lt (F.round x 13) (F.num 0) ∨ nan (F.round x 13)) :
    fact x = F.nan := by
  unfold fact
  rw [if_pos h]

open Classical in
theorem fc_guard1 {x y : F}
    (h : F.pne (F.mod (F.round x 13) (F.num 1)) (F.num 0) ∨
      F.pne (F.mod (F.round y 13) (F.num 1)) (F.num 0) ∨
      nan (F.round x 13) ∨ nan (F.round y 13)) :
    fc x y = F.nan := by
  unfold fc
  rw [if_pos h]

open Classical in
theorem fc_guard2 {x y : F}
    (h2 : F.lt (F.round x 13) (F.round y 13) ∨ F.lt (F.round x 13) (F.num 0) ∨
      F.lt (F.round y 13) (F.num 0)) :
    fc x y = F.nan := by
  unfold fc
  by_cases h1 : F.pne (F.mod (F.round x 13) (F.num 1)) (F.num 0) ∨
      F.pne (F.mod (F.round y 13) (F.num 1)) (F.num 0) ∨
      nan (F.round x 13) ∨ nan (F.round y 13)
  · rw [if_pos h1]
  · rw [if_neg h1, if_pos h2]

open Classical in
theorem fp_guard1 {x y : F}
    (h : F.pne (F.mod (F.round x 13) (F.num 1)) (F.num 0) ∨
      F.pne (F.mod (F.round y 13) (F.num 1)) (F.num 0) ∨
      nan (F.round x 13) ∨ nan (F.round y 13)) :
    fp x y = F.nan := by
  unfold fp
  rw [if_pos h]

open Classical in
theorem fp_guard2 {x y : F}
    (h2 : F.lt (F.round x 13) (F.round y 13) ∨ F.lt (F.round x 13) (F.num 0) ∨
      F.lt (F.round y 13) (F.num 0)) :
    fp x y = F.nan := by
  unfold fp
  by_cases h1 : F.pne (F.mod (F.round x 13) (F.num 1)) (F.num 0) ∨
      F.pne (F.mod (F.round y 13) (F.num 1)) (F.num 0) ∨
      nan (F.round x 13) ∨ nan (F.round y 13)
  · rw [if_pos h1]
  · rw [if_neg h1, if_pos h2]

open Classical in
theorem sinh_nan {x : F} (h : nan x) : sinh x = F.nan := by
  unfold sinh
  rw [if_pos h]

open Classical in
theorem cosh_nan {x : F} (h : nan x) : cosh x = F.nan := by
  unfold cosh
  rw [if_pos h]

open Classical in
theorem tanh_nan {x : F} (h : nan x) : tanh x = F.nan := by
  unfold tanh
  rw [if_pos (Or.inr (Or.inr h))]

open Classical in
theorem arsinh_nan {x : F} (fuel : ℕ) (h : nan x) : arsinh fuel x = some F.nan := by
  unfold arsinh
  rw [if_pos h]

open Classical in
theorem arcosh_guard {x : F} (fuel : ℕ) (h : F.lt x (F.num 1) ∨ nan x) :
    arcosh fuel x = some F.nan := by
  unfold arcosh
  rw [if_pos h]

open Classical in
theorem artanh_guard {x : F} (fuel : ℕ) (h : F.le (F.num 1) (F.abs x) ∨ nan x) :
    artanh fuel x = some F.nan := by
  unfold artanh
  rw [if_pos h]

open Classical in
theorem sgn_nan {x : F} (h : nan x) : sgn x = F.nan := by
  unfold sgn
  rw [if_pos h]

open Classical in
theorem fi_guard {x n : F} (h : (F.peq x (F.num 0) ∧ F.le n (F.num 0)) ∨ nan x ∨ nan n) :
    fi x n = F.nan := by
  unfold fi
  rw [if_pos h]

open Classical in
theorem induce_pinf : induce F.pinf = F.nan := by
  unfold induce
  rw [if_pos (Or.inr nan_pinf)]

/-! ### Reduction of `induce` (claim C6) -/

open Classical in
/-- Evaluation form of `induce` on a finite argument below the ceiling. -/
theorem induce_num_eval (t : ℝ) (h : ¬ 10 ^ 10 < t) :
    induce (F.num t) =
      (if 0 ≤ pymod t (2 * picode) ∧ picode < pymod t (2 * picode) then
        F.num (pymod t (2 * picode) - 2 * picode)
      else if pymod t (2 * picode) < 0 ∧ pymod t (2 * picode) < -picode then
        F.num (pymod t (2 * picode) + 2 * picode)
      else F.num (pymod t (2 * picode))) := by
  unfold induce
  rw [if_neg (show ¬ (F.lt (F.num (10 ^ 10)) (F.num t) ∨ nan (F.num t)) by
    simp only [F.lt_num_num, nan_num, or_false, not_lt]
    exact le_of_not_lt h)]

open Classical in
/-- For arguments not above the (signed) `10^10` ceiling, `induce` returns
a residue modulo `2*pi` lying in `(-pi, pi]`. -/
theorem induce_reduce {t : ℝ} (h : t ≤ 10 ^ 10) :
    ∃ r : ℝ, ∃ k : ℤ, induce (F.num t) = F.num r ∧ r = t - 2 * picode * k ∧
      -picode < r ∧ r ≤ picode := by
  have hpi := picode_pos
  have h2pi : (0 : ℝ) < 2 * picode := by positivity
  have hb := pymod_nonneg_lt (x := t) h2pi
  rw [induce_num_eval t (not_lt.mpr h)]
  by_cases hgt : 0 ≤ pymod t (2 * picode) ∧ picode < pymod t (2 * picode)
  · rw [if_pos hgt]
    refine ⟨pymod t (2 * picode) - 2 * picode, ⌊t / (2 * picode)⌋ + 1, rfl, ?_, ?_, ?_⟩
    · unfold pymod
      push_cast
      ring
    · linarith [hgt.2]
    · linarith [hb.2]
  · rw [if_neg hgt]
    have hle : pymod t (2 * picode) ≤ picode := by
      rcases not_and_or.mp hgt with h1 | h1
      · exact absurd hb.1 h1
      · linarith [not_lt.mp h1]
    rw [if_neg (show ¬ (pymod t (2 * picode) < 0 ∧ pymod t (2 * picode) < -picode) by
      rintro ⟨h1, -⟩
      linarith [hb.1])]
    exact ⟨pymod t (2 * picode), ⌊t / (2 * picode)⌋, rfl, by unfold pymod; ring, by linarith [hb.1],
      hle⟩

/-! ### `fact` characterization (claim C7) -/

theorem pyround_neg_one : pyround (-1 : ℝ) 13 = -1 := by
  have h := pyround_intCast (-1) 13
  push_cast at h
  exact h

theorem pyround_five : pyround (5 : ℝ) 13 = 5 := by
  have h := pyround_intCast 5 13
  push_cast at h
  exact h

theorem pyround_five_half : pyround (5 / 2 : ℝ) 13 = 5 / 2 :=
  pyround_of_int 25000000000000 (by norm_num)

theorem pymod_five_half : pymod (5 / 2 : ℝ) 1 = 1 / 2 := by
  unfold pymod
  rw [div_one, show ⌊(5 / 2 : ℝ)⌋ = 2 by
    rw [Int.floor_eq_iff] <;> norm_num]
  norm_num

open Classical in
/-- `fact` on a finite value whose 13-digit rounding is a violation. -/
theorem fact_num_guard {v : ℝ} (h : pymod (pyround v 13) 1 ≠ 0 ∨ pyround v 13 < 0) :
    fact (F.num v) = F.nan := by
  apply fact_guard
  rcases h with h | h
  · exact Or.inl (by
      rw [F.round_num, F.mod_num_num _ 1 one_ne_zero]
      simpa using h)
  · exact Or.inr (Or.inl (by
      rw [F.round_num]
      exact h))

open Classical in
/-- `fact` on a finite value whose 13-digit rounding is a nonnegative
integer: the iterative product, i.e. the factorial of that integer. -/
theorem fact_num_of_int {v : ℝ} (h1 : pymod (pyround v 13) 1 = 0) (h2 : 0 ≤ pyround v 13) :
    fact (F.num v) = F.num ((Nat.factorial (⌊pyround v 13⌋.toNat) : ℕ) : ℝ) := by
  have hcond : ¬ (F.pne (F.mod (F.num (pyround v 13)) (F.num 1)) (F.num 0) ∨
      F.lt (F.num (pyround v 13)) (F.num 0) ∨ nan (F.num (pyround v 13))) := by
    rw [F.mod_num_num _ 1 one_ne_zero, h1]
    simp only [F.pne_num_num, F.lt_num_num, nan_num, or_false, ne_eq, not_true_eq_false,
      false_or, not_lt, not_or]
    exact h2
  simp only [fact, F.round_num]
  rw [if_neg hcond]
  obtain ⟨n, hn⟩ := (pymod_one_eq_zero_iff _).mp h1
  have hn0 : 0 ≤ n := by exact_mod_cast hn ▸ h2
  rw [hn, Int.floor_intCast]
  rw [show n = ((n.toNat : ℕ) : ℤ) by omega, factLoop_natCast]
  norm_cast

theorem fact_five : fact (F.num 5) = F.num 120 := by
  have h := fact_natCast 5
  norm_num [Nat.factorial] at h
  exact h

theorem fact_zero : fact (F.num 0) = F.num 1 := by
  have h := fact_natCast 0
  norm_num [Nat.factorial] at h
  exact h

theorem fact_neg_one : fact (F.num (-1)) = F.nan :=
  fact_num_guard (Or.inr (by rw [pyround_neg_one]; norm_num))

theorem fact_five_half : fact (F.num (5 / 2)) = F.nan :=
  fact_num_guard (Or.inl (by rw [pyround_five_half, pymod_five_half]; norm_num))

/-! ### `betterCore` characterization (claim C8) -/

open Classical in
theorem scaleDown_fst_pos {x : ℝ} (h : 10 ≤ |x|) : 1 ≤ (scaleDown x).1 := by
  rw [scaleDown]
  rw [dif_pos h]
  exact Nat.le_add_left 1 _

open Classical in
theorem scaleUp_fst_pos {x : ℝ} (h : |x| < 1) (hx : x ≠ 0) : 1 ≤ (scaleUp x).1 := by
  rw [scaleUp]
  rw [dif_pos ⟨h, hx⟩]
  exact Nat.le_add_left 1 _

open Classical in
/-- The zero-forcing of `better`: the scaled state is `(0, 0, false)`
exactly for magnitudes below `10^-10` or negative values of magnitude
below `10^-5` (the source compares `x`, not `abs(x)`, with `10^-10`). -/
theorem betterCore_zero_iff (x : ℝ) :
    betterCore x = ((0 : ℝ), (0 : ℤ), false) ↔
      (|x| < 10 ^ (-10 : ℤ) ∨ (x < 0 ∧ |x| < 10 ^ (-5 : ℤ))) := by
  have e5 : (10 : ℝ) ^ (-5 : ℤ) = 1 / 10 ^ 5 := by norm_num
  have e10 : (10 : ℝ) ^ (-10 : ℤ) = 1 / 10 ^ 10 := by norm_num
  unfold betterCore
  split_ifs with h1 h2 h3
  · have hp := scaleDown_fst_pos (x := x) (by
      have h10 : (10 : ℝ) ≤ 10 ^ 10 := by norm_num
      linarith)
    simp only [Prod.mk.injEq]
    constructor
    · rintro ⟨-, hexp, -⟩
      exfalso
      have hne : ((scaleDown x).1 : ℤ) ≠ 0 := by positivity
      exact hne hexp
    · rintro (habs | ⟨-, habs⟩) <;> exfalso <;> rw [e10, e5] at * <;> linarith
  · constructor
    · intro _
      rcases lt_or_le x 0 with hx | hx
      · exact Or.inr ⟨hx, h2⟩
      · exact Or.inl (by rw [abs_of_nonneg hx]; exact h3)
    · intro _
      rfl
  · push_neg at h3
    have hx0 : 0 < x := lt_of_lt_of_le (by rw [e10]; norm_num) h3
    simp only [Prod.mk.injEq]
    constructor
    · rintro ⟨-, -, hb⟩
      cases hb
    · rintro (habs | ⟨hneg, -⟩)
      · exfalso
        rw [abs_of_pos hx0] at habs
        linarith
      · exfalso
        linarith
  · push_neg at h1 h2
    simp only [Prod.mk.injEq]
    constructor
    · rintro ⟨hx, -, -⟩
      exfalso
      rw [hx, abs_zero] at h2
      rw [e5] at h2
      linarith
    · rintro (habs | ⟨-, habs⟩) <;> exfalso
      · rw [e10] at habs
        rw [e5] at h2
        linarith
      · rw [e5] at habs h2
        linarith

open Classical in
/-- The scientific-notation selector of `better`: the exponent is nonzero
exactly above `10^10` in magnitude or for nonnegative-signed values in
`[10^-10, 10^-5)` (negative small values are forced to zero instead). -/
theorem betterCore_exp_iff (x : ℝ) :
    (betterCore x).2.1 ≠ 0 ↔
      (10 ^ 10 < |x| ∨ (10 ^ (-10 : ℤ) ≤ x ∧ |x| < 10 ^ (-5 : ℤ))) := by
  have e5 : (10 : ℝ) ^ (-5 : ℤ) = 1 / 10 ^ 5 := by norm_num
  have e10 : (10 : ℝ) ^ (-10 : ℤ) = 1 / 10 ^ 10 := by norm_num
  unfold betterCore
  split_ifs with h1 h2 h3
  · have hp := scaleDown_fst_pos (x := x) (by
      have h10 : (10 : ℝ) ≤ 10 ^ 10 := by norm_num
      linarith)
    constructor
    · intro _
      exact Or.inl h1
    · intro _
      have hne : ((scaleDown x).1 : ℤ) ≠ 0 := by positivity
      exact hne
  · simp only [ne_eq, not_true_eq_false]
    constructor
    · intro hcon
      exact hcon.elim
    · rintro (hbig | ⟨hge, -⟩)
      · exact absurd hbig h1
      · exfalso
        rw [e10] at hge
        rw [e10] at h3
        linarith
  · push_neg at h3
    have hx0 : 0 < x := lt_of_lt_of_le (by rw [e10]; norm_num) h3
    have hp := scaleUp_fst_pos (x := x) (by
      rw [e5] at h2
      have h51 : (1 : ℝ) / 10 ^ 5 < 1 := by norm_num
      linarith) (ne_of_gt hx0)
    constructor
    · intro _
      exact Or.inr ⟨h3, h2⟩
    · intro _
      simp only [ne_eq, neg_eq_zero]
      have hne : ((scaleUp x).1 : ℤ) ≠ 0 := by positivity
      exact hne
  · push_neg at h1 h2
    constructor
    · intro hcon
      exact absurd rfl hcon
    · rintro (hbig | ⟨-, hsmall⟩) <;> exfalso
      · linarith
      · linarith

/-! ### Shared helpers for the claim theorems -/

/-- Substituting `(-b + s)/(2a)` into the quadratic. -/
theorem quad_root_plus {a b c : ℝ} (ha : a ≠ 0) (s : ℝ) :
    a * ((-b + s) / (2 * a)) ^ 2 + b * ((-b + s) / (2 * a)) + c
      = (s ^ 2 - (b ^ 2 - 4 * a * c)) / (4 * a) := by
  field_simp
  ring

/-- Substituting `(-b - s)/(2a)` into the quadratic. -/
theorem quad_root_minus {a b c : ℝ} (ha : a ≠ 0) (s : ℝ) :
    a * ((-b - s) / (2 * a)) ^ 2 + b * ((-b - s) / (2 * a)) + c
      = (s ^ 2 - (b ^ 2 - 4 * a * c)) / (4 * a) := by
  field_simp
  ring

open Classical in
/-- The periodicity search of `fi` stops as soon as the counter reaches
the cap `2 * 10^5`, returning the failure marker `10`. -/
theorem fiLoop_cap (n : ℝ) (k : ℕ) (h : 2 * 10 ^ 5 ≤ k) : fiLoop n k = F.num 10 := by
  rw [fiLoop]
  by_cases h1 : k ≠ 0 ∧ pymod (pyround (n * k) 10) 1 = 0
  · rw [if_pos h1]
  · rw [if_neg h1, if_pos h]

/-! ### Claim theorems -/

open Classical in
/-- Claim C1: for every function of the elementary function library
(`sin`, `cos`, `tan`, `arcsin`, `arccos`, `arctan`, `ln`, `lg`, `log`,
`sinh`, `cosh`, `tanh`, `arsinh`, `arcosh`, `artanh`, `fact`, `fc`, `fp`,
`sgn`, `fi`), a NaN argument yields the NaN sentinel; every domain
violation (the magnitude ceiling of `sin`/`cos`, a vanishing `cos` for
`tan`, `|x| > 1` for `arcsin`/`arccos`, the tangent-ceiling guard of
`arctan`, `x <= 0` for `ln`/`lg`/`log` and base 1 for `log`, a negative
or non-integral rounded argument for `fact`/`fc`/`fp`, order violations
for `fc`/`fp`, `x < 1` for `arcosh`, `|x| >= 1` for `artanh`, `0` to a
nonpositive power for `fi`) returns the NaN sentinel instead of raising;
and NaN propagates through all downstream arithmetic. -/
theorem claim_C1 :
    (sin F.nan = F.nan) ∧ (cos F.nan = F.nan) ∧ (tan F.nan = F.nan) ∧
    (∀ fuel, arcsin fuel F.nan = some F.nan) ∧
    (∀ fuel, arccos fuel F.nan = some F.nan) ∧
    (∀ fuel, arctan fuel F.nan = some F.nan) ∧
    (∀ fuel, ln fuel F.nan = some F.nan) ∧
    (∀ fuel, lg fuel F.nan = some F.nan) ∧
    (∀ fuel y, log fuel F.nan y = some F.nan) ∧
    (∀ fuel x, log fuel x F.nan = some F.nan) ∧
    (sinh F.nan = F.nan) ∧ (cosh F.nan = F.nan) ∧ (tanh F.nan = F.nan) ∧
    (∀ fuel, arsinh fuel F.nan = some F.nan) ∧
    (∀ fuel, arcosh fuel F.nan = some F.nan) ∧
    (∀ fuel, artanh fuel F.nan = some F.nan) ∧
    (fact F.nan = F.nan) ∧
    (∀ y, fc F.nan y = F.nan) ∧ (∀ x, fc x F.nan = F.nan) ∧
    (∀ y, fp F.nan y = F.nan) ∧ (∀ x, fp x F.nan = F.nan) ∧
    (sgn F.nan = F.nan) ∧
    (∀ n, fi F.nan n = F.nan) ∧ (∀ x, fi x F.nan = F.nan) ∧
    (∀ t : ℝ, 10 ^ 10 < |t| → sin (F.num t) = F.nan) ∧
    (∀ t : ℝ, 10 ^ 10 < |t| → cos (F.num t) = F.nan) ∧
    (∀ x, F.peq (cos x) (F.num 0) → tan x = F.nan) ∧
    (∀ fuel (t : ℝ), 1 < |t| → arcsin fuel (F.num t) = some F.nan) ∧
    (∀ fuel (t : ℝ), 1 < |t| → arccos fuel (F.num t) = some F.nan) ∧
    (∀ fuel x, F.le (tan (F.num (picode / 2 - 10 ^ (-15 : ℤ)))) (F.abs x) ∨ nan x →
      arctan fuel x = some F.nan) ∧
    (∀ fuel (t : ℝ), t ≤ 0 → ln fuel (F.num t) = some F.nan) ∧
    (∀ fuel (t : ℝ), t ≤ 0 → lg fuel (F.num t) = some F.nan) ∧
    (∀ fuel (t u : ℝ), t = 1 ∨ t ≤ 0 ∨ u ≤ 0 → log fuel (F.num t) (F.num u) = some F.nan) ∧
    (∀ t : ℝ, pymod (pyround t 13) 1 ≠ 0 ∨ pyround t 13 < 0 → fact (F.num t) = F.nan) ∧
    (∀ t u : ℝ, pymod (pyround t 13) 1 ≠ 0 → fc (F.num t) (F.num u) = F.nan) ∧
    (∀ t u : ℝ, pyround t 13 < pyround u 13 ∨ pyround t 13 < 0 ∨ pyround u 13 < 0 →
      fc (F.num t) (F.num u) = F.nan) ∧
    (∀ t u : ℝ, pymod (pyround t 13) 1 ≠ 0 → fp (F.num t) (F.num u) = F.nan) ∧
    (∀ t u : ℝ, pyround t 13 < pyround u 13 ∨ pyround t 13 < 0 ∨ pyround u 13 < 0 →
      fp (F.num t) (F.num u) = F.nan) ∧
    (∀ fuel (t : ℝ), t < 1 → arcosh fuel (F.num t) = some F.nan) ∧
    (∀ fuel (t : ℝ), 1 ≤ |t| → artanh fuel (F.num t) = some F.nan) ∧
    (∀ u : ℝ, u ≤ 0 → fi (F.num 0) (F.num u) = F.nan) ∧
    (∀ y, F.add F.nan y = F.nan) ∧ (∀ y, F.sub F.nan y = F.nan) ∧
    (∀ y, F.mul F.nan y = F.nan) ∧ (∀ y, F.div F.nan y = F.nan) ∧
    (∀ y, F.mod F.nan y = F.nan) := by
  refine ⟨sin_nan, cos_nan, tan_nan,
    fun fuel => arcsin_guard fuel (Or.inr nan_nan),
    fun fuel => arccos_guard fuel (Or.inr nan_nan),
    fun fuel => arctan_guard fuel (Or.inr nan_nan),
    fun fuel => ln_guard fuel (Or.inr (Or.inr nan_nan)),
    fun fuel => lg_guard fuel (Or.inl nan_nan),
    fun fuel y => log_guard fuel (Or.inl nan_nan),
    fun fuel x => log_guard fuel (Or.inr (Or.inl nan_nan)),
    sinh_nan nan_nan, cosh_nan nan_nan, tanh_nan nan_nan,
    fun fuel => arsinh_nan fuel nan_nan,
    fun fuel => arcosh_guard fuel (Or.inr nan_nan),
    fun fuel => artanh_guard fuel (Or.inr nan_nan),
    fact_guard (Or.inr (Or.inr (show nan (F.round F.nan 13) from nan_nan))),
    fun y => fc_guard1 (Or.inr (Or.inr (Or.inl (show nan (F.round F.nan 13) from nan_nan)))),
    fun x => fc_guard1 (Or.inr (Or.inr (Or.inr (show nan (F.round F.nan 13) from nan_nan)))),
    fun y => fp_guard1 (Or.inr (Or.inr (Or.inl (show nan (F.round F.nan 13) from nan_nan)))),
    fun x => fp_guard1 (Or.inr (Or.inr (Or.inr (show nan (F.round F.nan 13) from nan_nan)))),
    sgn_nan nan_nan,
    fun n => fi_guard (Or.inr (Or.inl nan_nan)),
    fun x => fi_guard (Or.inr (Or.inr nan_nan)),
    fun t h => sin_big h,
    fun t h => cos_big h,
    fun x h => tan_cos_zero h,
    fun fuel t h => arcsin_guard fuel (Or.inl h),
    fun fuel t h => arccos_guard fuel (Or.inl h),
    fun fuel x h => arctan_guard fuel h,
    fun fuel t h => ln_guard fuel (Or.inr (Or.inl h)),
    fun fuel t h => lg_guard fuel (Or.inr h),
    fun fuel t u h => ?_,
    fun t h => fact_num_guard h,
    fun t u h => fc_guard1 (Or.inl ?_),
    fun t u h => fc_guard2 h,
    fun t u h => fp_guard1 (Or.inl ?_),
    fun t u h => fp_guard2 h,
    fun fuel t h => arcosh_guard fuel (Or.inl h),
    fun fuel t h => artanh_guard fuel (Or.inl h),
    fun u h => fi_guard (Or.inl ⟨rfl, h⟩),
    F.add_nan, F.sub_nan, F.mul_nan, F.div_nan, F.mod_nan⟩
  · rcases h with h | h | h
    · exact log_guard fuel (Or.inr (Or.inr (Or.inl h)))
    · exact log_guard fuel (Or.inr (Or.inr (Or.inr (Or.inl h))))
    · exact log_guard fuel (Or.inr (Or.inr (Or.inr (Or.inr h))))
  · rw [F.round_num, F.mod_num_num _ 1 one_ne_zero]
    exact h
  · rw [F.round_num, F.mod_num_num _ 1 one_ne_zero]
    exact h

/-- Closed instances for C1: each hypothesis-bearing conjunct applied at a
concrete input with its hypothesis discharged. -/
theorem claim_C1_witness :
    (10 ^ 10 < |(10 ^ 11 : ℝ)| ∧ sin (F.num (10 ^ 11)) = F.nan) ∧
    (10 ^ 10 < |(-(10 ^ 12) : ℝ)| ∧ cos (F.num (-(10 ^ 12))) = F.nan) ∧
    (F.peq (cos (F.num (picode / 2))) (F.num 0) ∧ tan (F.num (picode / 2)) = F.nan) ∧
    ((1 : ℝ) < |(2 : ℝ)| ∧ arcsin 0 (F.num 2) = some F.nan) ∧
    ((1 : ℝ) < |(-2 : ℝ)| ∧ arccos 0 (F.num (-2)) = some F.nan) ∧
    ((F.le (tan (F.num (picode / 2 - 10 ^ (-15 : ℤ)))) (F.abs F.nan) ∨ nan F.nan) ∧
      arctan 0 F.nan = some F.nan) ∧
    ((-1 : ℝ) ≤ 0 ∧ ln 0 (F.num (-1)) = some F.nan) ∧
    ((0 : ℝ) ≤ 0 ∧ lg 0 (F.num 0) = some F.nan) ∧
    (((1 : ℝ) = 1 ∨ (1 : ℝ) ≤ 0 ∨ (5 : ℝ) ≤ 0) ∧ log 0 (F.num 1) (F.num 5) = some F.nan) ∧
    ((pymod (pyround (-1 : ℝ) 13) 1 ≠ 0 ∨ pyround (-1 : ℝ) 13 < 0) ∧
      fact (F.num (-1)) = F.nan) ∧
    (pymod (pyround (5 / 2 : ℝ) 13) 1 ≠ 0 ∧ fc (F.num (5 / 2)) (F.num 1) = F.nan) ∧
    ((pyround (2 : ℝ) 13 < pyround (3 : ℝ) 13 ∨ pyround (2 : ℝ) 13 < 0 ∨
      pyround (3 : ℝ) 13 < 0) ∧ fc (F.num 2) (F.num 3) = F.nan) ∧
    (pymod (pyround (5 / 2 : ℝ) 13) 1 ≠ 0 ∧ fp (F.num (5 / 2)) (F.num 1) = F.nan) ∧
    ((pyround (2 : ℝ) 13 < pyround (3 : ℝ) 13 ∨ pyround (2 : ℝ) 13 < 0 ∨
      pyround (3 : ℝ) 13 < 0) ∧ fp (F.num 2) (F.num 3) = F.nan) ∧
    ((0 : ℝ) < 1 ∧ arcosh 0 (F.num 0) = some F.nan) ∧
    ((1 : ℝ) ≤ |(1 : ℝ)| ∧ artanh 0 (F.num 1) = some F.nan) ∧
    ((-1 : ℝ) ≤ 0 ∧ fi (F.num 0) (F.num (-1)) = F.nan) := by
  obtain ⟨-, -, -, -, -, -, -, -, -, -, -, -, -, -, -, -, -, -, -, -, -, -, -, -,
    h25, h26, h27, h28, h29, h30, h31, h32, h33, h34, h35, h36, h37, h38, h39, h40, h41,
    -, -, -, -, -⟩ := claim_C1
  have ha1 : |(10 ^ 11 : ℝ)| = 10 ^ 11 := abs_of_nonneg (by positivity)
  have ha2 : |(-(10 ^ 12) : ℝ)| = 10 ^ 12 := by
    rw [abs_neg]
    exact abs_of_nonneg (by positivity)
  have ha3 : |(2 : ℝ)| = 2 := abs_of_nonneg (by norm_num)
  have ha4 : |(-2 : ℝ)| = 2 := by
    rw [abs_neg]
    exact ha3
  have hb1 : (10 : ℝ) ^ 10 < |(10 ^ 11 : ℝ)| := by rw [ha1]; norm_num
  have hb2 : (10 : ℝ) ^ 10 < |(-(10 ^ 12) : ℝ)| := by rw [ha2]; norm_num
  have hb3 : F.peq (cos (F.num (picode / 2))) (F.num 0) := by rw [cos_half_picode]; rfl
  have hb4 : (1 : ℝ) < |(2 : ℝ)| := by rw [ha3]; norm_num
  have hb5 : (1 : ℝ) < |(-2 : ℝ)| := by rw [ha4]; norm_num
  have hfac : pyround (-1 : ℝ) 13 < 0 := by rw [pyround_neg_one]; norm_num
  have hint : pymod (pyround (5 / 2 : ℝ) 13) 1 ≠ 0 := by
    rw [pyround_five_half, pymod_five_half]
    norm_num
  have p2 : pyround (2 : ℝ) 13 = 2 := by
    rw [show (2 : ℝ) = ((2 : ℤ) : ℝ) by norm_num, pyround_intCast]
  have p3 : pyround (3 : ℝ) 13 = 3 := by
    rw [show (3 : ℝ) = ((3 : ℤ) : ℝ) by norm_num, pyround_intCast]
  have hord : pyround (2 : ℝ) 13 < pyround (3 : ℝ) 13 := by
    rw [p2, p3]
    norm_num
  have hone : (1 : ℝ) ≤ |(1 : ℝ)| := by rw [abs_one]
  exact ⟨⟨hb1, h25 _ hb1⟩, ⟨hb2, h26 _ hb2⟩, ⟨hb3, h27 _ hb3⟩,
    ⟨hb4, h28 0 2 hb4⟩, ⟨hb5, h29 0 (-2) hb5⟩,
    ⟨Or.inr nan_nan, h30 0 F.nan (Or.inr nan_nan)⟩,
    ⟨by norm_num, h31 0 (-1) (by norm_num)⟩,
    ⟨le_rfl, h32 0 0 le_rfl⟩,
    ⟨Or.inl rfl, h33 0 1 5 (Or.inl rfl)⟩,
    ⟨Or.inr hfac, h34 (-1) (Or.inr hfac)⟩,
    ⟨hint, h35 (5 / 2) 1 hint⟩,
    ⟨Or.inl hord, h36 2 3 (Or.inl hord)⟩,
    ⟨hint, h37 (5 / 2) 1 hint⟩,
    ⟨Or.inl hord, h38 2 3 (Or.inl hord)⟩,
    ⟨by norm_num, h39 0 0 (by norm_num)⟩,
    ⟨hone, h40 0 1 hone⟩,
    ⟨by norm_num, h41 (-1) (by norm_num)⟩⟩

/-- Claim C2: normalizing the input string `3!^2` produces
`pow(fact(3),(2))` — the nested form equivalent to `pow(fact(3),2)` up to
the redundant parentheses the rewriter always places around the second
operand: the `!` is first rewritten into the unary call `fact(3)`, and
the following `^` then re-wraps that call as the first argument of a
binary `pow` whose second argument is `2`.  The second conjunct isolates
the first stage on input `3!` alone. -/
theorem claim_C2 :
    (inputx ['0'] ['3', '!', '^', '2']).tout =
      ['p', 'o', 'w', '(', 'f', 'a', 'c', 't', '(', '3', ')', ',', '(', '2', ')', ')'] ∧
    (inputx ['0'] ['3', '!']).tout = ['f', 'a', 'c', 't', '(', '3', ')'] := by
  decide

open Classical in
/-- Claim C3: for the cubic `x^3 - 8` (`a=1, b=0, c=0, d=-8`) the cubic
solver returns the real root `2` together with the conjugate pair
`-1 ± sqrt(3)·i` (encoded as real part `-1` followed by `±` imaginary
part `sqrt 3`); the `DT = B^2-4AC > 0` branch obtains them from the cube
roots `fi(·, 1/3)` of `A·b + 1.5·a·(-B + sqrt DT) = 0` and of
`A·b + 1.5·a·(-B - sqrt DT) = -216`, with `B = 72`, `DT = 5184`. -/
theorem claim_C3 :
    (∀ fuel, f3 fuel (F.num 1) (F.num 0) (F.num 0) (F.num (-8)) 1 0 =
      some (Sum.inl [F.num 2, F.num (-1), F.num (Real.sqrt 3), F.num (-(Real.sqrt 3))])) ∧
    fi (F.num (-216)) (F.num (1 / 3)) = F.num (-6) ∧
    fi (F.num 0) (F.num (1 / 3)) = F.num 0 ∧
    (0 : ℝ) * 0 + 1.5 * 1 * (-(72) + Real.sqrt 5184) = 0 ∧
    (0 : ℝ) * 0 + 1.5 * 1 * (-(72) - Real.sqrt 5184) = -216 := by
  have h72 : Real.sqrt 5184 = 72 := by
    rw [show (5184 : ℝ) = 72 ^ 2 by norm_num, Real.sqrt_sq (by norm_num : (0 : ℝ) ≤ 72)]
  refine ⟨f3_at_cubic, fi_neg216, fi_zero_third, ?_, ?_⟩ <;> rw [h72] <;> norm_num

open Classical in
/-- Claim C4: for every quadratic with finite coefficients and `a ≠ 0`,
`f2` branches on the sign of the discriminant `b^2-4ac`: positive gives
the two distinct real roots `(-b ± sqrt(b^2-4ac))/(2a)` (each verified to
satisfy the quadratic), zero gives the single repeated root `-b/(2a)`,
negative gives real part `-b/(2a)` with `±` imaginary part
`sqrt(4ac-b^2)/(2a)`, and the `z = 1` query reports the vertex
`-b/(2a)`; in particular `a=1, b=0, c=-4` yields roots `{2, -2}` and
`a=1, b=0, c=4` yields the pair `±2i` (real part `0`, imaginary parts
`±2`). -/
theorem claim_C4 :
    (∀ a b c : ℝ, a ≠ 0 →
      (0 < b ^ 2 - 4 * a * c →
        f2 (F.num a) (F.num b) (F.num c) 1 0 = some (Sum.inl
          [F.num ((-b + Real.sqrt (b ^ 2 - 4 * a * c)) / (2 * a)),
           F.num ((-b - Real.sqrt (b ^ 2 - 4 * a * c)) / (2 * a))]) ∧
        (-b + Real.sqrt (b ^ 2 - 4 * a * c)) / (2 * a) ≠
          (-b - Real.sqrt (b ^ 2 - 4 * a * c)) / (2 * a) ∧
        a * ((-b + Real.sqrt (b ^ 2 - 4 * a * c)) / (2 * a)) ^ 2 +
          b * ((-b + Real.sqrt (b ^ 2 - 4 * a * c)) / (2 * a)) + c = 0 ∧
        a * ((-b - Real.sqrt (b ^ 2 - 4 * a * c)) / (2 * a)) ^ 2 +
          b * ((-b - Real.sqrt (b ^ 2 - 4 * a * c)) / (2 * a)) + c = 0) ∧
      (b ^ 2 - 4 * a * c = 0 →
        f2 (F.num a) (F.num b) (F.num c) 1 0 = some (Sum.inl [F.num (-b / (2 * a))]) ∧
        a * (-b / (2 * a)) ^ 2 + b * (-b / (2 * a)) + c = 0) ∧
      (b ^ 2 - 4 * a * c < 0 →
        f2 (F.num a) (F.num b) (F.num c) 1 0 = some (Sum.inl
          [F.num (-b / (2 * a)), F.num (Real.sqrt (4 * a * c - b ^ 2) / (2 * a)),
           F.num (-(Real.sqrt (4 * a * c - b ^ 2) / (2 * a)))])) ∧
      f2 (F.num a) (F.num b) (F.num c) 0 1 = some (Sum.inr (F.num (-b / (2 * a))))) ∧
    f2 (F.num 1) (F.num 0) (F.num (-4)) 1 0 = some (Sum.inl [F.num 2, F.num (-2)]) ∧
    f2 (F.num 1) (F.num 0) (F.num 4) 1 0 =
      some (Sum.inl [F.num 0, F.num 2, F.num (-2)]) := by
  refine ⟨fun a b c ha => ?_, ?_, ?_⟩
  · have h2a : (2 : ℝ) * a ≠ 0 := mul_ne_zero two_ne_zero ha
    refine ⟨fun h => ⟨f2_G_pos ha h, ?_, ?_, ?_⟩, fun h => ⟨f2_G_zero ha h, ?_⟩,
      fun h => ?_, f2_D ha⟩
    · have hs : 0 < Real.sqrt (b ^ 2 - 4 * a * c) := Real.sqrt_pos.mpr h
      intro heq
      rw [div_eq_div_iff h2a h2a] at heq
      have := mul_right_cancel₀ h2a heq
      linarith
    · rw [quad_root_plus ha, Real.sq_sqrt h.le, sub_self, zero_div]
    · rw [quad_root_minus ha, Real.sq_sqrt h.le, sub_self, zero_div]
    · rw [show -b / (2 * a) = (-b + 0) / (2 * a) by ring, quad_root_plus ha, h]
      norm_num
    · have := f2_G_neg ha h
      rw [show -(b ^ 2 - 4 * a * c) = 4 * a * c - b ^ 2 by ring] at this
      exact this
  · have hs : Real.sqrt ((0 : ℝ) ^ 2 - 4 * 1 * (-4)) = 4 := by
      rw [show ((0 : ℝ) ^ 2 - 4 * 1 * (-4)) = 4 ^ 2 by norm_num,
        Real.sqrt_sq (by norm_num : (0 : ℝ) ≤ 4)]
    have := f2_G_pos (a := 1) (b := 0) (c := -4) (by norm_num) (by norm_num)
    rw [hs] at this
    norm_num at this
    exact this
  · have hs : Real.sqrt (-((0 : ℝ) ^ 2 - 4 * 1 * 4)) = 4 := by
      rw [show (-((0 : ℝ) ^ 2 - 4 * 1 * 4)) = 4 ^ 2 by norm_num,
        Real.sqrt_sq (by norm_num : (0 : ℝ) ≤ 4)]
    have := f2_G_neg (a := 1) (b := 0) (c := 4) (by norm_num) (by norm_num)
    rw [hs] at this
    norm_num at this
    exact this

/-- Closed instance for C4: the positive-discriminant branch and the
vertex query at `a=1, b=0, c=-4`. -/
theorem claim_C4_witness :
    ((1 : ℝ) ≠ 0) ∧ (0 < (0 : ℝ) ^ 2 - 4 * 1 * (-4)) ∧
    f2 (F.num 1) (F.num 0) (F.num (-4)) 1 0 = some (Sum.inl
      [F.num ((-0 + Real.sqrt ((0 : ℝ) ^ 2 - 4 * 1 * (-4))) / (2 * 1)),
       F.num ((-0 - Real.sqrt ((0 : ℝ) ^ 2 - 4 * 1 * (-4))) / (2 * 1))]) ∧
    f2 (F.num 1) (F.num 0) (F.num (-4)) 0 1 = some (Sum.inr (F.num (-0 / (2 * 1)))) :=
  ⟨by norm_num, by norm_num,
    ((claim_C4.1 1 0 (-4) (by norm_num)).1 (by norm_num)).1,
    (claim_C4.1 1 0 (-4) (by norm_num)).2.2.2⟩

/-- Counterexample to C5 as stated: the transducer accepts `3!` (its
output is not the error marker `DC`), yet feeding the normalized output
`fact(3)` back through the transducer does not reproduce it — the letters
`f` and `w` of the emitted call names lie outside the accepted alphabet,
so the second pass rejects. -/
theorem counterexample_C5 :
    (inputx ['0'] ['3', '!']).tout ≠ ['D', 'C'] ∧
    (inputx ['0'] ((inputx ['0'] ['3', '!']).tout)).tout ≠ (inputx ['0'] ['3', '!']).tout := by
  decide

/-- Claim C5 (amended): normalization is not idempotent on all accepted
inputs.  The postfix rewrites emit the call names `fact`/`pow`/`fc`/`fp`,
whose letters `f` and `w` are outside the accepted alphabet, so an output
such as `fact(3)` (from `3!`) is rejected as `DC` on a second pass.  On
accepted inputs whose normal form stays inside the alphabet,
renormalization is verified to be the identity on the instances
`sin(3)`, `2sin(3)` (→ `2*sin(3)`), `lg100` (→ `lg(100)`), `2.5` and
`(2` (→ `(2)`). -/
theorem claim_C5 :
    (inputx ['0'] ['3', '!']).tout = ['f', 'a', 'c', 't', '(', '3', ')'] ∧
    (inputx ['0'] ['f', 'a', 'c', 't', '(', '3', ')']).tout = ['D', 'C'] ∧
    'f' ∉ alphabetCh ∧ 'w' ∉ alphabetCh ∧
    (inputx ['0'] ((inputx ['0'] ['s', 'i', 'n', '(', '3', ')']).tout)).tout =
      (inputx ['0'] ['s', 'i', 'n', '(', '3', ')']).tout ∧
    (inputx ['0'] ((inputx ['0'] ['2', 's', 'i', 'n', '(', '3', ')']).tout)).tout =
      (inputx ['0'] ['2', 's', 'i', 'n', '(', '3', ')']).tout ∧
    (inputx ['0'] ((inputx ['0'] ['l', 'g', '1', '0', '0']).tout)).tout =
      (inputx ['0'] ['l', 'g', '1', '0', '0']).tout ∧
    (inputx ['0'] ((inputx ['0'] ['2', '.', '5']).tout)).tout =
      (inputx ['0'] ['2', '.', '5']).tout ∧
    (inputx ['0'] ((inputx ['0'] ['(', '2']).tout)).tout =
      (inputx ['0'] ['(', '2']).tout := by
  decide

open Classical in
/-- Counterexample to C6 as stated: `induce` tests the signed value
`x > 10^10`, not the magnitude, so `-(10^11)` — whose magnitude exceeds
the ceiling — is not mapped to NaN. -/
theorem counterexample_C6 :
    10 ^ 10 < |(-(10 ^ 11) : ℝ)| ∧ induce (F.num (-(10 ^ 11))) ≠ F.nan := by
  constructor
  · rw [abs_neg, abs_of_nonneg (by positivity)]
    norm_num
  · obtain ⟨r, k, heq, -, -, -⟩ := induce_reduce (t := -(10 ^ 11)) (by norm_num)
    rw [heq]
    exact fun hc => F.noConfusion hc

open Classical in
/-- Claim C6 (amended): `induce` maps every argument exceeding `10^10`
(signed comparison, not magnitude — see the counterexample) to NaN, and
every other finite argument to its residue modulo `2π` normalized into
`(-π, π]`; it is the identity there.  Since `sin` and `cos` apply
`induce` to `abs(x)`, the magnitude form of the claim does hold for
them: any argument of magnitude above `10^10` yields NaN. -/
theorem claim_C6 :
    (∀ t : ℝ, 10 ^ 10 < t → induce (F.num t) = F.nan) ∧
    (∀ t : ℝ, t ≤ 10 ^ 10 → ∃ r : ℝ, ∃ k : ℤ,
      induce (F.num t) = F.num r ∧ r = t - 2 * picode * k ∧ -picode < r ∧ r ≤ picode) ∧
    (∀ t : ℝ, -picode < t → t ≤ picode → induce (F.num t) = F.num t) ∧
    (∀ t : ℝ, 10 ^ 10 < |t| → sin (F.num t) = F.nan ∧ cos (F.num t) = F.nan) :=
  ⟨fun _ h => induce_big h, fun _ h => induce_reduce h,
   fun _ h1 h2 => induce_id h1 h2, fun _ h => ⟨sin_big h, cos_big h⟩⟩

/-- Closed instances for C6: the ceiling at `10^11`, reduction at `7`,
identity at `1`, and the sin/cos magnitude guard at `-(10^12)`. -/
theorem claim_C6_witness :
    (10 ^ 10 < (10 ^ 11 : ℝ) ∧ induce (F.num (10 ^ 11)) = F.nan) ∧
    ((7 : ℝ) ≤ 10 ^ 10 ∧ ∃ r : ℝ, ∃ k : ℤ, induce (F.num 7) = F.num r ∧
      r = 7 - 2 * picode * k ∧ -picode < r ∧ r ≤ picode) ∧
    (-picode < (1 : ℝ) ∧ (1 : ℝ) ≤ picode ∧ induce (F.num 1) = F.num 1) ∧
    (10 ^ 10 < |(-(10 ^ 12) : ℝ)| ∧ sin (F.num (-(10 ^ 12))) = F.nan ∧
      cos (F.num (-(10 ^ 12))) = F.nan) := by
  have hpi := picode_bounds
  have habs : (10 : ℝ) ^ 10 < |(-(10 ^ 12) : ℝ)| := by
    rw [abs_neg, abs_of_nonneg (by positivity)]
    norm_num
  have hlo : -picode < (1 : ℝ) := by linarith [hpi.1]
  have hhi : (1 : ℝ) ≤ picode := by linarith [hpi.1]
  exact ⟨⟨by norm_num, claim_C6.1 (10 ^ 11) (by norm_num)⟩,
    ⟨by norm_num, claim_C6.2.1 7 (by norm_num)⟩,
    ⟨hlo, hhi, claim_C6.2.2.1 1 hlo hhi⟩,
    ⟨habs, (claim_C6.2.2.2 (-(10 ^ 12)) habs).1, (claim_C6.2.2.2 (-(10 ^ 12)) habs).2⟩⟩

open Classical in
/-- Claim C7: `fact` first rounds its argument to 13 decimal places; a
negative, non-integral, or non-finite rounded value gives NaN, and
otherwise the result is the factorial of the rounded value computed by
iterative product (so `fact(0) = 1`); in particular `fact(5) = 120`,
`fact(0) = 1`, `fact(-1) = NaN`, `fact(2.5) = NaN` (stated at `5/2`). -/
theorem claim_C7 :
    (∀ v : ℝ, pymod (pyround v 13) 1 ≠ 0 ∨ pyround v 13 < 0 → fact (F.num v) = F.nan) ∧
    (∀ v : ℝ, pymod (pyround v 13) 1 = 0 → 0 ≤ pyround v 13 →
      fact (F.num v) = F.num ((Nat.factorial (⌊pyround v 13⌋.toNat) : ℕ) : ℝ)) ∧
    fact F.nan = F.nan ∧ fact F.pinf = F.nan ∧ fact F.ninf = F.nan ∧
    fact (F.num 5) = F.num 120 ∧ fact (F.num 0) = F.num 1 ∧
    fact (F.num (-1)) = F.nan ∧ fact (F.num (5 / 2)) = F.nan :=
  ⟨fun _ h => fact_num_guard h, fun _ h1 h2 => fact_num_of_int h1 h2,
   fact_guard (Or.inr (Or.inr (show nan (F.round F.nan 13) from nan_nan))),
   fact_guard (Or.inr (Or.inr (show nan (F.round F.pinf 13) from nan_pinf))),
   fact_guard (Or.inr (Or.inr (show nan (F.round F.ninf 13) from nan_ninf))),
   fact_five, fact_zero, fact_neg_one, fact_five_half⟩

/-- Closed instances for C7: the guard at `-1` and the product at `5`. -/
theorem claim_C7_witness :
    ((pymod (pyround (-1 : ℝ) 13) 1 ≠ 0 ∨ pyround (-1 : ℝ) 13 < 0) ∧
      fact (F.num (-1)) = F.nan) ∧
    (pymod (pyround (5 : ℝ) 13) 1 = 0 ∧ 0 ≤ pyround (5 : ℝ) 13 ∧
      fact (F.num 5) = F.num ((Nat.factorial (⌊pyround (5 : ℝ) 13⌋.toNat) : ℕ) : ℝ)) := by
  have h1 : pyround (-1 : ℝ) 13 < 0 := by
    rw [pyround_neg_one]
    norm_num
  have h2 : pymod (pyround (5 : ℝ) 13) 1 = 0 := by
    rw [pyround_five, show (5 : ℝ) = ((5 : ℤ) : ℝ) by norm_num, pymod_intCast_one]
  have h3 : 0 ≤ pyround (5 : ℝ) 13 := by
    rw [pyround_five]
    norm_num
  exact ⟨⟨Or.inr h1, claim_C7.1 (-1) (Or.inr h1)⟩, h2, h3, claim_C7.2.1 5 h2 h3⟩

open Classical in
/-- Counterexample to C8 as stated: the zero-forcing test compares the
signed value `x`, not the magnitude, with `10^-10`; hence `-(10^-7)` —
whose magnitude is at least `10^-10` — is still forced to exact zero. -/
theorem counterexample_C8 :
    ¬ |(-(10 ^ (-7 : ℤ)) : ℝ)| < 10 ^ (-10 : ℤ) ∧
    betterCore (-(10 ^ (-7 : ℤ))) = ((0 : ℝ), (0 : ℤ), false) := by
  have e7 : |(-(10 ^ (-7 : ℤ)) : ℝ)| = 10 ^ (-7 : ℤ) := by
    rw [abs_neg]
    exact abs_of_nonneg (by positivity)
  constructor
  · rw [e7, not_lt]
    norm_num
  · refine (betterCore_zero_iff _).mpr (Or.inr ⟨?_, ?_⟩)
    · exact neg_lt_zero.mpr (by positivity)
    · rw [e7]
      norm_num

open Classical in
/-- Claim C8 (amended): the formatter's scaling stage keeps a finite
value as a plain (to-be-rounded) decimal when `10^-5 ≤ |x| ≤ 10^10`;
it selects the scientific mantissa-exponent form exactly for values of
magnitude above `10^10` or for values in `[10^-10, 10^-5)` on the
nonnegative side; and it forces to exact zero exactly the values of
magnitude below `10^-10` together with the negative values of magnitude
below `10^-5` — the zero-forcing test is on the signed value, not the
magnitude (see the counterexample). -/
theorem claim_C8 :
    (∀ x : ℝ, 10 ^ (-5 : ℤ) ≤ |x| → |x| ≤ 10 ^ 10 → betterCore x = (x, 0, false)) ∧
    (∀ x : ℝ, (betterCore x).2.1 ≠ 0 ↔
      (10 ^ 10 < |x| ∨ (10 ^ (-10 : ℤ) ≤ x ∧ |x| < 10 ^ (-5 : ℤ)))) ∧
    (∀ x : ℝ, betterCore x = ((0 : ℝ), (0 : ℤ), false) ↔
      (|x| < 10 ^ (-10 : ℤ) ∨ (x < 0 ∧ |x| < 10 ^ (-5 : ℤ)))) := by
  refine ⟨fun x h1 h2 => ?_, betterCore_exp_iff, betterCore_zero_iff⟩
  unfold betterCore
  rw [if_neg (not_lt.mpr h2), if_neg (not_lt.mpr h1)]

/-- Closed instance for C8: `3` stays in plain decimal form. -/
theorem claim_C8_witness :
    10 ^ (-5 : ℤ) ≤ |(3 : ℝ)| ∧ |(3 : ℝ)| ≤ 10 ^ 10 ∧
    betterCore 3 = ((3 : ℝ), (0 : ℤ), false) := by
  have e3 : |(3 : ℝ)| = 3 := abs_of_nonneg (by norm_num)
  have h1 : (10 : ℝ) ^ (-5 : ℤ) ≤ |(3 : ℝ)| := by
    rw [e3]
    norm_num
  have h2 : |(3 : ℝ)| ≤ 10 ^ 10 := by
    rw [e3]
    norm_num
  exact ⟨h1, h2, claim_C8.1 3 h1 h2⟩

open Classical in
/-- Claim C10: the sentinel predicate `nan(x)`, i.e.
`not (-inf < x < inf)`, holds on `+inf`, `-inf` and NaN and on no finite
value, so the guarded library functions (`fact`, `sinh`, `sgn`,
`induce`) return the NaN sentinel on infinite arguments exactly as on
NaN. -/
theorem claim_C10 :
    nan F.pinf ∧ nan F.ninf ∧ nan F.nan ∧ (∀ v : ℝ, ¬ nan (F.num v)) ∧
    fact F.pinf = F.nan ∧ fact F.ninf = F.nan ∧
    sinh F.pinf = F.nan ∧ sinh F.ninf = F.nan ∧
    sgn F.pinf = F.nan ∧ sgn F.ninf = F.nan ∧
    induce F.pinf = F.nan ∧ induce F.ninf = F.nan :=
  ⟨nan_pinf, nan_ninf, nan_nan, fun v => nan_num v,
   fact_guard (Or.inr (Or.inr (show nan (F.round F.pinf 13) from nan_pinf))),
   fact_guard (Or.inr (Or.inr (show nan (F.round F.ninf 13) from nan_ninf))),
   sinh_nan nan_pinf, sinh_nan nan_ninf,
   sgn_nan nan_pinf, sgn_nan nan_ninf,
   induce_pinf, by unfold induce; rw [if_pos (Or.inr nan_ninf)]⟩

/-! ### Termination of the search loops (claim C9)

The inner `while` loops of `arcsin`/`arccos` stop once `out` passes the
`10^10` ceiling (the series functions then return NaN and the Python
comparison is false); the `ln` loops stop by monotonicity of `e ** out`;
the `arctan` loops compare against `atan(out)`, which is always finite
(NaN is replaced by the proxy `tan(pi/2 - 10^-15)`), and stop because the
sampled grid `out0 - m*pi/10^i` hits the residue class `pi/2 (mod 2*pi)`
within one period, where the source's `tan` evaluates to a value of
magnitude about `3.6*10^16` — beyond the proxy ceiling `~1.03*10^15` that
bounds every accepted argument. -/

theorem cosSeries_neg_half_bounds :
    -(1 / 10 ^ 16) < cosSeries (-(picode / 2)) ∧ cosSeries (-(picode / 2)) < 0 := by
  have h16 : List.range 16 = [0, 1, 2, 3, 4, 5, 6, 7, 8, 9, 10, 11, 12, 13, 14, 15] := rfl
  unfold cosSeries
  rw [h16]
  simp only [List.map_cons, List.map_nil, List.sum_cons, List.sum_nil]
  rw [picode_val]
  constructor <;> norm_num [Nat.factorial]

theorem sinSeries_neg_half_bounds :
    -(11 / 10) < sinSeries (-(picode / 2)) ∧ sinSeries (-(picode / 2)) < -(9 / 10) := by
  have h16 : List.range 16 = [0, 1, 2, 3, 4, 5, 6, 7, 8, 9, 10, 11, 12, 13, 14, 15] := rfl
  unfold sinSeries
  rw [h16]
  simp only [List.map_cons, List.map_nil, List.sum_cons, List.sum_nil]
  rw [picode_val]
  constructor <;> norm_num [Nat.factorial]

theorem cosSeries_proxy_gt :
    9 / 10 ^ 16 < cosSeries (picode / 2 - 10 ^ (-15 : ℤ)) := by
  have h16 : List.range 16 = [0, 1, 2, 3, 4, 5, 6, 7, 8, 9, 10, 11, 12, 13, 14, 15] := rfl
  have he : (10 : ℝ) ^ (-15 : ℤ) = 1 / 10 ^ 15 := by norm_num
  unfold cosSeries
  rw [h16]
  simp only [List.map_cons, List.map_nil, List.sum_cons, List.sum_nil]
  rw [picode_val, he]
  norm_num [Nat.factorial]

theorem sinSeries_proxy_bounds :
    0 < sinSeries (picode / 2 - 10 ^ (-15 : ℤ)) ∧
      sinSeries (picode / 2 - 10 ^ (-15 : ℤ)) < 11 / 10 := by
  have h16 : List.range 16 = [0, 1, 2, 3, 4, 5, 6, 7, 8, 9, 10, 11, 12, 13, 14, 15] := rfl
  have he : (10 : ℝ) ^ (-15 : ℤ) = 1 / 10 ^ 15 := by norm_num
  unfold sinSeries
  rw [h16]
  simp only [List.map_cons, List.map_nil, List.sum_cons, List.sum_nil]
  rw [picode_val, he]
  constructor <;> norm_num [Nat.factorial]

/-- The `tan` sample at the asymptote class is at least `2*10^15`. -/
theorem big_ratio_ge :
    2 * 10 ^ 15 ≤ |sinSeries (-(picode / 2))| / |cosSeries (-(picode / 2))| := by
  obtain ⟨hC1, hC2⟩ := cosSeries_neg_half_bounds
  obtain ⟨hS1, hS2⟩ := sinSeries_neg_half_bounds
  have hCabs : |cosSeries (-(picode / 2))| < 1 / 10 ^ 16 :=
    abs_lt.mpr ⟨by linarith, by linarith⟩
  have hCpos : 0 < |cosSeries (-(picode / 2))| := abs_pos.mpr (ne_of_lt hC2)
  have hSabs : 9 / 10 ≤ |sinSeries (-(picode / 2))| := by
    rw [abs_of_neg (by linarith)]
    linarith
  calc (2 * 10 ^ 15 : ℝ) ≤ (9 / 10) / (1 / 10 ^ 16) := by norm_num
    _ ≤ |sinSeries (-(picode / 2))| / |cosSeries (-(picode / 2))| :=
        div_le_div (abs_nonneg _) hSabs hCpos hCabs.le

/-- The proxy value `tan(pi/2 - 10^-15)` is at most `2*10^15`. -/
theorem proxy_ratio_le :
    |sinSeries (picode / 2 - 10 ^ (-15 : ℤ))| / |cosSeries (picode / 2 - 10 ^ (-15 : ℤ))| ≤
      2 * 10 ^ 15 := by
  obtain ⟨hS1, hS2⟩ := sinSeries_proxy_bounds
  have hC := cosSeries_proxy_gt
  have hSabs : |sinSeries (picode / 2 - 10 ^ (-15 : ℤ))| ≤ 11 / 10 := by
    rw [abs_of_pos hS1]
    linarith
  have hCabs : 9 / 10 ^ 16 ≤ |cosSeries (picode / 2 - 10 ^ (-15 : ℤ))| := by
    rw [abs_of_pos (by linarith)]
    linarith
  calc |sinSeries (picode / 2 - 10 ^ (-15 : ℤ))| / |cosSeries (picode / 2 - 10 ^ (-15 : ℤ))| ≤
      (11 / 10) / (9 / 10 ^ 16) := div_le_div (by norm_num) hSabs (by norm_num) hCabs
    _ ≤ 2 * 10 ^ 15 := by norm_num

theorem pymod_add_int_mul (x m : ℝ) (hm : m ≠ 0) (j : ℤ) :
    pymod (x + m * j) m = pymod x m := by
  unfold pymod
  rw [show (x + m * (j : ℝ)) / m = x / m + (j : ℝ) by field_simp; ring, Int.floor_add_int]
  push_cast
  ring

theorem pymod_self_of {x m : ℝ} (h0 : 0 ≤ x) (hx : x < m) : pymod x m = x := by
  have hm : 0 < m := lt_of_le_of_lt h0 hx
  unfold pymod
  rw [Int.floor_eq_zero_iff.mpr ⟨div_nonneg h0 hm.le, by rwa [div_lt_one hm]⟩]
  norm_num

open Classical in
/-- `atan` on an argument whose `tan` is finite is that `tan`. -/
theorem atan_of_num {x : F} {v : ℝ} (h : tan x = F.num v) : atan x = F.num v := by
  simp only [atan]
  rw [h, if_neg (nan_num v)]

open Classical in
/-- `induce` at the residue class `3*pi/2 (mod 2*pi)`: the value
`-pi/2`. -/
theorem induce_class {u : ℝ} (hb : u ≤ 10 ^ 10)
    (hm : pymod u (2 * picode) = 3 * picode / 2) :
    induce (F.num u) = F.num (-(picode / 2)) := by
  have hpi := picode_pos
  rw [induce_num_eval u (not_lt.mpr hb), hm]
  rw [if_pos ⟨by linarith, by linarith⟩]
  congr 1
  ring

open Classical in
/-- `cos` on a finite value in `[0, pi/2)`: the series with the positive
quadrant correction. -/
theorem cos_num_eval_first {t : ℝ} (h0 : 0 ≤ t) (hlt : t < picode / 2) :
    cos (F.num t) = F.num |cosSeries t| := by
  have hpi := picode_pos
  have habs : F.abs (F.num t) = F.num t := by
    rw [F.abs_num, abs_of_nonneg h0]
  have hx : induce (F.abs (F.num t)) = F.num t := by
    rw [habs, induce_id (by linarith) (by linarith)]
  simp only [cos]
  rw [hx]
  rw [if_neg (nan_num t)]
  rw [if_neg (show ¬ F.peq (F.num t) (F.num (picode / 2)) from ne_of_lt hlt)]
  rw [foldl_add_num _ _ (cos_term t) (List.range 16) 0]
  rw [if_pos (show F.le (F.num 0) (F.num t) ∧ F.lt (F.num t) (F.num (picode / 2)) from ⟨h0, hlt⟩)]
  rw [zero_add, F.abs_num]
  rfl

open Classical in
/-- `sin` on a negative value whose magnitude reduces to the asymptote
class: the value `|sinSeries (-pi/2)|`. -/
theorem sin_class_neg {t : ℝ} (ht : t < 0) (hb : -t ≤ 10 ^ 10)
    (hm : pymod (-t) (2 * picode) = 3 * picode / 2) :
    sin (F.num t) = F.num |sinSeries (-(picode / 2))| := by
  have hpi := picode_pos
  have habs : F.abs (F.num t) = F.num (-t) := by
    rw [F.abs_num, abs_of_neg ht]
  have hx : induce (F.abs (F.num t)) = F.num (-(picode / 2)) := by
    rw [habs, induce_class hb hm]
  have habs2 : F.abs (F.num (-(picode / 2))) = F.num (picode / 2) := by
    rw [F.abs_num, abs_neg, abs_of_pos (by linarith)]
  simp only [sin]
  rw [hx, habs2]
  rw [if_neg (nan_num _)]
  rw [if_neg (show ¬ (F.peq (F.num (-(picode / 2))) (F.num 0) ∨
      F.peq (F.num (picode / 2)) (F.num picode)) by
    rintro (h | h)
    · have : -(picode / 2) = 0 := h
      linarith
    · have : picode / 2 = picode := h
      linarith)]
  rw [foldl_add_num _ _ (sin_term (-(picode / 2))) (List.range 16) 0]
  rw [if_neg (show ¬ (F.lt (F.num 0) (F.num (-(picode / 2))) ∧
      F.lt (F.num (-(picode / 2))) (F.num picode)) by
    rintro ⟨h1, -⟩
    have : (0 : ℝ) < -(picode / 2) := h1
    linarith)]
  rw [sgn_num_neg ht, zero_add, F.abs_num, F.neg_num, F.mul_num_num, neg_one_mul, neg_neg]
  rfl

open Classical in
/-- `sin` on a positive value reducing to the asymptote class:
`-|sinSeries (-pi/2)|`. -/
theorem sin_class_pos {t : ℝ} (ht : 0 < t) (hb : t ≤ 10 ^ 10)
    (hm : pymod t (2 * picode) = 3 * picode / 2) :
    sin (F.num t) = F.num (-|sinSeries (-(picode / 2))|) := by
  have hpi := picode_pos
  have habs : F.abs (F.num t) = F.num t := by
    rw [F.abs_num, abs_of_pos ht]
  have hx : induce (F.abs (F.num t)) = F.num (-(picode / 2)) := by
    rw [habs, induce_class hb hm]
  have habs2 : F.abs (F.num (-(picode / 2))) = F.num (picode / 2) := by
    rw [F.abs_num, abs_neg, abs_of_pos (by linarith)]
  simp only [sin]
  rw [hx, habs2]
  rw [if_neg (nan_num _)]
  rw [if_neg (show ¬ (F.peq (F.num (-(picode / 2))) (F.num 0) ∨
      F.peq (F.num (picode / 2)) (F.num picode)) by
    rintro (h | h)
    · have : -(picode / 2) = 0 := h
      linarith
    · have : picode / 2 = picode := h
      linarith)]
  rw [foldl_add_num _ _ (sin_term (-(picode / 2))) (List.range 16) 0]
  rw [if_neg (show ¬ (F.lt (F.num 0) (F.num (-(picode / 2))) ∧
      F.lt (F.num (-(picode / 2))) (F.num picode)) by
    rintro ⟨h1, -⟩
    have : (0 : ℝ) < -(picode / 2) := h1
    linarith)]
  rw [sgn_num_pos ht, zero_add, F.abs_num, F.neg_num, F.mul_num_num, one_mul]
  rfl

open Classical in
/-- `cos` on any value whose magnitude reduces to the asymptote class:
`-|cosSeries (-pi/2)|`. -/
theorem cos_class {t : ℝ} (hb : |t| ≤ 10 ^ 10)
    (hm : pymod |t| (2 * picode) = 3 * picode / 2) :
    cos (F.num t) = F.num (-|cosSeries (-(picode / 2))|) := by
  have hpi := picode_pos
  have hx : induce (F.abs (F.num t)) = F.num (-(picode / 2)) := by
    rw [F.abs_num, induce_class hb hm]
  simp only [cos]
  rw [hx]
  rw [if_neg (nan_num _)]
  rw [if_neg (show ¬ F.peq (F.num (-(picode / 2))) (F.num (picode / 2)) by
    intro h
    have : -(picode / 2) = picode / 2 := h
    linarith)]
  rw [foldl_add_num _ _ (cos_term (-(picode / 2))) (List.range 16) 0]
  rw [if_neg (show ¬ (F.le (F.num 0) (F.num (-(picode / 2))) ∧
      F.lt (F.num (-(picode / 2))) (F.num (picode / 2))) by
    rintro ⟨h1, -⟩
    have : (0 : ℝ) ≤ -(picode / 2) := h1
    linarith)]
  rw [zero_add, F.abs_num, F.neg_num]
  rfl

open Classical in
/-- `tan` on a negative value of the asymptote class: the large negative
sample. -/
theorem tan_class_neg {t : ℝ} (ht : t < 0) (hb : -t ≤ 10 ^ 10)
    (hm : pymod (-t) (2 * picode) = 3 * picode / 2) :
    tan (F.num t) =
      F.num (-(|sinSeries (-(picode / 2))| / |cosSeries (-(picode / 2))|)) := by
  have hC := cosSeries_neg_half_bounds
  have hb' : |t| ≤ 10 ^ 10 := by rwa [abs_of_neg ht]
  have hm' : pymod |t| (2 * picode) = 3 * picode / 2 := by rwa [abs_of_neg ht]
  have hCne : -|cosSeries (-(picode / 2))| ≠ 0 := by
    simp only [ne_eq, neg_eq_zero, abs_eq_zero]
    exact ne_of_lt hC.2
  simp only [tan]
  rw [sin_class_neg ht hb hm, cos_class hb' hm']
  rw [if_neg (show ¬ (F.peq (F.num (-|cosSeries (-(picode / 2))|)) (F.num 0) ∨
      nan (F.num (-|cosSeries (-(picode / 2))|)) ∨
      nan (F.num |sinSeries (-(picode / 2))|)) by
    rintro (h | h | h)
    · exact hCne h
    · exact nan_num _ h
    · exact nan_num _ h)]
  rw [F.div_num_num _ _ hCne, div_neg]

open Classical in
/-- `tan` on a positive value of the asymptote class: the large positive
sample. -/
theorem tan_class_pos {t : ℝ} (ht : 0 < t) (hb : t ≤ 10 ^ 10)
    (hm : pymod t (2 * picode) = 3 * picode / 2) :
    tan (F.num t) =
      F.num (|sinSeries (-(picode / 2))| / |cosSeries (-(picode / 2))|) := by
  have hC := cosSeries_neg_half_bounds
  have hb' : |t| ≤ 10 ^ 10 := by rwa [abs_of_pos ht]
  have hm' : pymod |t| (2 * picode) = 3 * picode / 2 := by rwa [abs_of_pos ht]
  have hCne : -|cosSeries (-(picode / 2))| ≠ 0 := by
    simp only [ne_eq, neg_eq_zero, abs_eq_zero]
    exact ne_of_lt hC.2
  simp only [tan]
  rw [sin_class_pos ht hb hm, cos_class hb' hm']
  rw [if_neg (show ¬ (F.peq (F.num (-|cosSeries (-(picode / 2))|)) (F.num 0) ∨
      nan (F.num (-|cosSeries (-(picode / 2))|)) ∨
      nan (F.num (-|sinSeries (-(picode / 2))|))) by
    rintro (h | h | h)
    · exact hCne h
    · exact nan_num _ h
    · exact nan_num _ h)]
  rw [F.div_num_num _ _ hCne, neg_div_neg_eq]

open Classical in
/-- Evaluation of the guard constant of `arctan`: the proxy
`tan(pi/2 - 10^-15)` is the ratio of the two series values there. -/
theorem tan_proxy_eval :
    tan (F.num (picode / 2 - 10 ^ (-15 : ℤ))) =
      F.num (|sinSeries (picode / 2 - 10 ^ (-15 : ℤ))| /
        |cosSeries (picode / 2 - 10 ^ (-15 : ℤ))|) := by
  have hpi := picode_bounds
  have he : (10 : ℝ) ^ (-15 : ℤ) = 1 / 10 ^ 15 := by norm_num
  have h0 : 0 < picode / 2 - 10 ^ (-15 : ℤ) := by
    rw [he]
    linarith [hpi.1]
  have hlt : picode / 2 - 10 ^ (-15 : ℤ) < picode := by
    rw [he]
    linarith [hpi.1]
  have hlt2 : picode / 2 - 10 ^ (-15 : ℤ) < picode / 2 := by
    rw [he]
    linarith
  have hC := cosSeries_proxy_gt
  have hCne : |cosSeries (picode / 2 - 10 ^ (-15 : ℤ))| ≠ 0 := by
    rw [abs_of_pos (by linarith)]
    linarith
  simp only [tan]
  rw [sin_num_eval h0 hlt, cos_num_eval_first h0.le hlt2]
  rw [if_neg (show ¬ (F.peq (F.num |cosSeries (picode / 2 - 10 ^ (-15 : ℤ))|) (F.num 0) ∨
      nan (F.num |cosSeries (picode / 2 - 10 ^ (-15 : ℤ))|) ∨
      nan (F.num |sinSeries (picode / 2 - 10 ^ (-15 : ℤ))|)) by
    rintro (h | h | h)
    · exact hCne h
    · exact nan_num _ h
    · exact nan_num _ h)]
  rw [F.div_num_num _ _ hCne]

open Classical in
/-- A stepping search loop returns a value as soon as some sampled point
fails its continue-condition within the fuel budget. -/
theorem searchLoop_stops (cond : ℝ → Prop) (loop : ℝ → ℕ → Option ℝ) (step : ℝ)
    (hloop : ∀ (out : ℝ) (f : ℕ), loop out (f + 1) =
      if cond out then loop (out + step) f else some out) :
    ∀ (m : ℕ) (out : ℝ) (fuel : ℕ), m < fuel → ¬ cond (out + m * step) →
      ∃ u : ℕ, u ≤ m ∧ loop out fuel = some (out + u * step) := by
  intro m
  induction m with
  | zero =>
    intro out fuel hf hc
    obtain ⟨f, rfl⟩ : ∃ f, fuel = f + 1 := ⟨fuel - 1, by omega⟩
    have hc' : ¬ cond out := by simpa using hc
    refine ⟨0, le_rfl, ?_⟩
    rw [hloop, if_neg hc']
    norm_num
  | succ m ih =>
    intro out fuel hf hc
    obtain ⟨f, rfl⟩ : ∃ f, fuel = f + 1 := ⟨fuel - 1, by omega⟩
    by_cases h0 : cond out
    · have hc' : ¬ cond (out + step + m * step) := by
        have he : out + step + (m : ℕ) * step = out + ((m + 1 : ℕ) : ℝ) * step := by
          push_cast
          ring
        rw [he]
        exact hc
      obtain ⟨u, hu, hl⟩ := ih (out + step) f (by omega) hc'
      refine ⟨u + 1, by omega, ?_⟩
      rw [hloop, if_pos h0, hl]
      congr 1
      push_cast
      ring
    · refine ⟨0, by omega, ?_⟩
      rw [hloop, if_neg h0]
      norm_num

open Classical in
/-- A stepping search loop that has returned keeps returning the same
value on any larger fuel budget. -/
theorem searchLoop_mono (cond : ℝ → Prop) (loop : ℝ → ℕ → Option ℝ) (step : ℝ)
    (hloop : ∀ (out : ℝ) (f : ℕ), loop out (f + 1) =
      if cond out then loop (out + step) f else some out)
    (h0 : ∀ out, loop out 0 = none) :
    ∀ (n : ℕ) (out r : ℝ), loop out n = some r → ∀ n' : ℕ, n ≤ n' → loop out n' = some r := by
  intro n
  induction n with
  | zero =>
    intro out r h
    rw [h0] at h
    exact absurd h (by simp)
  | succ n ih =>
    intro out r h n' hn'
    obtain ⟨k, rfl⟩ : ∃ k, n' = k + 1 := ⟨n' - 1, by omega⟩
    rw [hloop] at h ⊢
    by_cases hc : cond out
    · rw [if_pos hc] at h ⊢
      exact ih _ _ h _ (by omega)
    · rw [if_neg hc] at h ⊢
      exact h

open Classical in
/-- A 15-phase outer refinement returns once each inner phase does. -/
theorem searchIter_term (iter : ℕ → List ℕ → ℝ → Bool → Option ℝ)
    (phase : ℕ → Bool → ℝ → ℕ → Option ℝ) (brk : ℝ → Prop)
    (hnil : ∀ (fuel : ℕ) (out : ℝ) (dt : Bool), iter fuel [] out dt = some out)
    (hcons : ∀ (fuel i : ℕ) (rest : List ℕ) (out : ℝ) (dt : Bool),
      iter fuel (i :: rest) out dt = (phase i dt out fuel).bind fun out1 =>
        if brk out1 then some out1 else iter fuel rest out1 (!dt))
    (hphase : ∀ (i : ℕ) (dt : Bool) (out : ℝ),
      ∃ N r, ∀ fuel : ℕ, N ≤ fuel → phase i dt out fuel = some r) :
    ∀ (l : List ℕ) (out : ℝ) (dt : Bool),
      ∃ N r, ∀ fuel : ℕ, N ≤ fuel → iter fuel l out dt = some r := by
  intro l
  induction l with
  | nil =>
    intro out dt
    exact ⟨0, out, fun fuel _ => hnil fuel out dt⟩
  | cons i rest ih =>
    intro out dt
    obtain ⟨N1, r1, h1⟩ := hphase i dt out
    by_cases hbrk : brk r1
    · refine ⟨N1, r1, fun fuel hf => ?_⟩
      rw [hcons, h1 fuel hf]
      simp only [Option.some_bind]
      rw [if_pos hbrk]
    · obtain ⟨N2, r2, h2⟩ := ih r1 (!dt)
      refine ⟨max N1 N2, r2, fun fuel hf => ?_⟩
      rw [hcons, h1 fuel (le_trans (le_max_left _ _) hf)]
      simp only [Option.some_bind]
      rw [if_neg hbrk, h2 fuel (le_trans (le_max_right _ _) hf)]

theorem exists_nat_step_ge (a b st : ℝ) (hst : 0 < st) : ∃ m : ℕ, b ≤ a + m * st := by
  obtain ⟨m, hm⟩ := exists_nat_ge ((b - a) / st)
  refine ⟨m, ?_⟩
  have h2 := (div_le_iff hst).mp hm
  linarith

open Classical in
/-- The ascending `arcsin` search stops: past the `10^10` ceiling the
sampled `sin` is NaN and the comparison is false. -/
theorem arcsinUp_term (x st : ℝ) (hst : 0 < st) (out : ℝ) :
    ∃ N r, ∀ fuel : ℕ, N ≤ fuel → arcsinUp x st out fuel = some r := by
  obtain ⟨m, hm⟩ := exists_nat_step_ge out (10 ^ 10 + 1) st hst
  have hfail : ¬ F.lt (sin (F.num (out + m * st))) (F.num x) := by
    rw [sin_big (show 10 ^ 10 < |out + (m : ℕ) * st| by
      calc (10 : ℝ) ^ 10 < 10 ^ 10 + 1 := by norm_num
        _ ≤ out + (m : ℕ) * st := hm
        _ ≤ |out + (m : ℕ) * st| := le_abs_self _)]
    exact fun h => h
  obtain ⟨u, hu, hl⟩ := searchLoop_stops (fun o => F.lt (sin (F.num o)) (F.num x))
    (arcsinUp x st) st (fun o f => rfl) m out (m + 1) (by omega) hfail
  exact ⟨m + 1, out + u * st, fun fuel hf =>
    searchLoop_mono (fun o => F.lt (sin (F.num o)) (F.num x))
      (arcsinUp x st) st (fun o f => rfl) (fun o => rfl) (m + 1) out _ hl fuel hf⟩

open Classical in
/-- The descending `arcsin` search stops below the `-10^10` ceiling. -/
theorem arcsinDown_term (x st : ℝ) (hst : 0 < st) (out : ℝ) :
    ∃ N r, ∀ fuel : ℕ, N ≤ fuel → arcsinDown x st out fuel = some r := by
  obtain ⟨m, hm⟩ := exists_nat_step_ge (-out) (10 ^ 10 + 1) st hst
  have hloop : ∀ (o : ℝ) (f : ℕ), arcsinDown x st o (f + 1) =
      if F.lt (F.num x) (sin (F.num o)) then arcsinDown x st (o + -st) f else some o := by
    intro o f
    simp only [arcsinDown]
    rw [sub_eq_add_neg]
  have hfail : ¬ F.lt (F.num x) (sin (F.num (out + m * -st))) := by
    rw [sin_big (show 10 ^ 10 < |out + (m : ℕ) * -st| by
      calc (10 : ℝ) ^ 10 < 10 ^ 10 + 1 := by norm_num
        _ ≤ -(out + (m : ℕ) * -st) := by linarith
        _ ≤ |out + (m : ℕ) * -st| := neg_le_abs _)]
    exact fun h => h
  obtain ⟨u, hu, hl⟩ := searchLoop_stops (fun o => F.lt (F.num x) (sin (F.num o)))
    (arcsinDown x st) (-st) hloop m out (m + 1) (by omega) hfail
  exact ⟨m + 1, out + u * -st, fun fuel hf =>
    searchLoop_mono (fun o => F.lt (F.num x) (sin (F.num o)))
      (arcsinDown x st) (-st) hloop (fun o => rfl) (m + 1) out _ hl fuel hf⟩

open Classical in
/-- The ascending `arccos` search stops past the ceiling. -/
theorem arccosUp_term (x st : ℝ) (hst : 0 < st) (out : ℝ) :
    ∃ N r, ∀ fuel : ℕ, N ≤ fuel → arccosUp x st out fuel = some r := by
  obtain ⟨m, hm⟩ := exists_nat_step_ge out (10 ^ 10 + 1) st hst
  have hfail : ¬ F.lt (F.num x) (cos (F.num (out + m * st))) := by
    rw [cos_big (show 10 ^ 10 < |out + (m : ℕ) * st| by
      calc (10 : ℝ) ^ 10 < 10 ^ 10 + 1 := by norm_num
        _ ≤ out + (m : ℕ) * st := hm
        _ ≤ |out + (m : ℕ) * st| := le_abs_self _)]
    exact fun h => h
  obtain ⟨u, hu, hl⟩ := searchLoop_stops (fun o => F.lt (F.num x) (cos (F.num o)))
    (arccosUp x st) st (fun o f => rfl) m out (m + 1) (by omega) hfail
  exact ⟨m + 1, out + u * st, fun fuel hf =>
    searchLoop_mono (fun o => F.lt (F.num x) (cos (F.num o)))
      (arccosUp x st) st (fun o f => rfl) (fun o => rfl) (m + 1) out _ hl fuel hf⟩

open Classical in
/-- The descending `arccos` search stops below the ceiling. -/
theorem arccosDown_term (x st : ℝ) (hst : 0 < st) (out : ℝ) :
    ∃ N r, ∀ fuel : ℕ, N ≤ fuel → arccosDown x st out fuel = some r := by
  obtain ⟨m, hm⟩ := exists_nat_step_ge (-out) (10 ^ 10 + 1) st hst
  have hloop : ∀ (o : ℝ) (f : ℕ), arccosDown x st o (f + 1) =
      if F.lt (cos (F.num o)) (F.num x) then arccosDown x st (o + -st) f else some o := by
    intro o f
    simp only [arccosDown]
    rw [sub_eq_add_neg]
  have hfail : ¬ F.lt (cos (F.num (out + m * -st))) (F.num x) := by
    rw [cos_big (show 10 ^ 10 < |out + (m : ℕ) * -st| by
      calc (10 : ℝ) ^ 10 < 10 ^ 10 + 1 := by norm_num
        _ ≤ -(out + (m : ℕ) * -st) := by linarith
        _ ≤ |out + (m : ℕ) * -st| := neg_le_abs _)]
    exact fun h => h
  obtain ⟨u, hu, hl⟩ := searchLoop_stops (fun o => F.lt (cos (F.num o)) (F.num x))
    (arccosDown x st) (-st) hloop m out (m + 1) (by omega) hfail
  exact ⟨m + 1, out + u * -st, fun fuel hf =>
    searchLoop_mono (fun o => F.lt (cos (F.num o)) (F.num x))
      (arccosDown x st) (-st) hloop (fun o => rfl) (m + 1) out _ hl fuel hf⟩

open Classical in
/-- The ascending `ln` search stops once `e ** out` passes `x` (or at
once for nonpositive `x`). -/
theorem lnUp_term (xv st : ℝ) (hst : 0 < st) (out : ℝ) :
    ∃ N r, ∀ fuel : ℕ, N ≤ fuel → lnUp (F.num xv) st out fuel = some r := by
  obtain ⟨m, hfail⟩ : ∃ m : ℕ, ¬ F.lt (F.rpow eF (F.num (out + m * st))) (F.num xv) := by
    by_cases hx : 0 < xv
    · obtain ⟨m, hm⟩ := exists_nat_step_ge out
        (Real.logb (7437374403113 / 2736057139200) xv) st hst
      refine ⟨m, ?_⟩
      rw [eF_val, F.rpow_num_num]
      simp only [F.lt_num_num, not_lt]
      calc xv = (7437374403113 / 2736057139200 : ℝ) ^
            Real.logb (7437374403113 / 2736057139200) xv :=
            (Real.rpow_logb (by norm_num) (by norm_num) hx).symm
        _ ≤ (7437374403113 / 2736057139200 : ℝ) ^ (out + (m : ℕ) * st) :=
            (Real.rpow_le_rpow_left_iff (by norm_num)).mpr hm
    · refine ⟨0, ?_⟩
      rw [eF_val, F.rpow_num_num]
      simp only [F.lt_num_num, not_lt]
      have hp : (0 : ℝ) < (7437374403113 / 2736057139200 : ℝ) ^ (out + ((0 : ℕ) : ℝ) * st) :=
        Real.rpow_pos_of_pos (by norm_num) _
      linarith [not_lt.mp hx]
  obtain ⟨u, hu, hl⟩ := searchLoop_stops (fun o => F.lt (F.rpow eF (F.num o)) (F.num xv))
    (lnUp (F.num xv) st) st (fun o f => rfl) m out (m + 1) (by omega) hfail
  exact ⟨m + 1, out + u * st, fun fuel hf =>
    searchLoop_mono (fun o => F.lt (F.rpow eF (F.num o)) (F.num xv))
      (lnUp (F.num xv) st) st (fun o f => rfl) (fun o => rfl) (m + 1) out _ hl fuel hf⟩

open Classical in
/-- The descending `ln` search stops once `e ** out` drops below the
positive `x`. -/
theorem lnDown_term (xv st : ℝ) (hst : 0 < st) (hx : 0 < xv) (out : ℝ) :
    ∃ N r, ∀ fuel : ℕ, N ≤ fuel → lnDown (F.num xv) st out fuel = some r := by
  obtain ⟨m, hm⟩ := exists_nat_step_ge (-out)
    (-Real.logb (7437374403113 / 2736057139200) xv) st hst
  have hloop : ∀ (o : ℝ) (f : ℕ), lnDown (F.num xv) st o (f + 1) =
      if F.lt (F.num xv) (F.rpow eF (F.num o)) then lnDown (F.num xv) st (o + -st) f
      else some o := by
    intro o f
    simp only [lnDown]
    rw [sub_eq_add_neg]
  have hfail : ¬ F.lt (F.num xv) (F.rpow eF (F.num (out + m * -st))) := by
    rw [eF_val, F.rpow_num_num]
    simp only [F.lt_num_num, not_lt]
    calc (7437374403113 / 2736057139200 : ℝ) ^ (out + (m : ℕ) * -st) ≤
        (7437374403113 / 2736057139200 : ℝ) ^
          Real.logb (7437374403113 / 2736057139200) xv :=
          (Real.rpow_le_rpow_left_iff (by norm_num)).mpr (by linarith)
      _ = xv := Real.rpow_logb (by norm_num) (by norm_num) hx
  obtain ⟨u, hu, hl⟩ := searchLoop_stops (fun o => F.lt (F.num xv) (F.rpow eF (F.num o)))
    (lnDown (F.num xv) st) (-st) hloop m out (m + 1) (by omega) hfail
  exact ⟨m + 1, out + u * -st, fun fuel hf =>
    searchLoop_mono (fun o => F.lt (F.num xv) (F.rpow eF (F.num o)))
      (lnDown (F.num xv) st) (-st) hloop (fun o => rfl) (m + 1) out _ hl fuel hf⟩

open Classical in
/-- `arcsin` terminates on every input: some fuel makes it return. -/
theorem arcsin_term (x : F) : ∃ fuel r, arcsin fuel x = some r := by
  by_cases hg : F.lt (F.num 1) (F.abs x) ∨ nan x
  · exact ⟨0, F.nan, by unfold arcsin; rw [if_pos hg]⟩
  · cases x with
    | num v =>
      obtain ⟨N, r, hN⟩ := searchIter_term (arcsinIter v)
        (fun i dt out fuel => if dt then arcsinDown v (picode / 10 ^ i) out fuel
          else arcsinUp v (picode / 10 ^ i) out fuel)
        (fun o => F.peq (sin (F.num o)) (F.num v))
        (fun fuel out dt => rfl)
        (fun fuel i rest out dt => rfl)
        (fun i dt out => by
          have hst : (0 : ℝ) < picode / 10 ^ i := div_pos picode_pos (by positivity)
          cases dt
          · simpa using arcsinUp_term v (picode / 10 ^ i) hst out
          · simpa using arcsinDown_term v (picode / 10 ^ i) hst out)
        ((List.range 15).map (· + 1)) (-(picode / 2)) false
      refine ⟨N, F.num r, ?_⟩
      unfold arcsin
      rw [if_neg hg]
      show (arcsinIter v N ((List.range 15).map (· + 1)) (-(picode / 2)) false).map F.num =
        some (F.num r)
      rw [hN N le_rfl]
      rfl
    | pinf => exact absurd (Or.inr nan_pinf) hg
    | ninf => exact absurd (Or.inr nan_ninf) hg
    | nan => exact absurd (Or.inr nan_nan) hg

open Classical in
/-- `arccos` terminates on every input. -/
theorem arccos_term (x : F) : ∃ fuel r, arccos fuel x = some r := by
  by_cases hg : F.lt (F.num 1) (F.abs x) ∨ nan x
  · exact ⟨0, F.nan, by unfold arccos; rw [if_pos hg]⟩
  · cases x with
    | num v =>
      obtain ⟨N, r, hN⟩ := searchIter_term (arccosIter v)
        (fun i dt out fuel => if dt then arccosDown v (picode / 10 ^ i) out fuel
          else arccosUp v (picode / 10 ^ i) out fuel)
        (fun o => F.peq (cos (F.num o)) (F.num v))
        (fun fuel out dt => rfl)
        (fun fuel i rest out dt => rfl)
        (fun i dt out => by
          have hst : (0 : ℝ) < picode / 10 ^ i := div_pos picode_pos (by positivity)
          cases dt
          · simpa using arccosUp_term v (picode / 10 ^ i) hst out
          · simpa using arccosDown_term v (picode / 10 ^ i) hst out)
        ((List.range 15).map (· + 1)) 0 false
      refine ⟨N, F.num r, ?_⟩
      unfold arccos
      rw [if_neg hg]
      show (arccosIter v N ((List.range 15).map (· + 1)) 0 false).map F.num = some (F.num r)
      rw [hN N le_rfl]
      rfl
    | pinf => exact absurd (Or.inr nan_pinf) hg
    | ninf => exact absurd (Or.inr nan_ninf) hg
    | nan => exact absurd (Or.inr nan_nan) hg

open Classical in
/-- `ln` terminates on every input. -/
theorem ln_term (x : F) : ∃ fuel r, ln fuel x = some r := by
  by_cases hg : F.le (F.pow eF 600) (F.abs x) ∨ F.le x (F.num 0) ∨ nan x
  · exact ⟨0, F.nan, by unfold ln; rw [if_pos hg]⟩
  · cases x with
    | num v =>
      have hv : 0 < v := by
        by_contra hle
        exact hg (Or.inr (Or.inl (not_lt.mp hle)))
      obtain ⟨N, r, hN⟩ := searchIter_term (lnIter (F.num v))
        (fun i dt out fuel => if dt then lnDown (F.num v) (100 / 10 ^ i) out fuel
          else lnUp (F.num v) (100 / 10 ^ i) out fuel)
        (fun o => F.peq (F.rpow eF (F.num o)) (F.num v))
        (fun fuel out dt => rfl)
        (fun fuel i rest out dt => rfl)
        (fun i dt out => by
          have hst : (0 : ℝ) < 100 / 10 ^ i := by positivity
          cases dt
          · simpa using lnUp_term v (100 / 10 ^ i) hst out
          · simpa using lnDown_term v (100 / 10 ^ i) hst hv out)
        (List.range 16) (-600) false
      exact ⟨N, F.num r, by unfold ln; rw [if_neg hg, hN N le_rfl]; rfl⟩
    | pinf =>
      refine absurd (Or.inl ?_) hg
      rw [eF_val]
      trivial
    | ninf => exact absurd (Or.inr (Or.inl trivial)) hg
    | nan => exact absurd (Or.inr (Or.inr nan_nan)) hg

open Classical in
/-- The ascending `arctan` search stops: starting from a grid point
`K*pi/10^i`, within one period the sampled grid hits the class
`3*pi/2 (mod 2*pi)`, where the source's `tan` exceeds every accepted
argument. -/
theorem arctanUp_phase {x : ℝ} (hx : |x| < 2 * 10 ^ 15) {i : ℕ} (hi1 : 1 ≤ i)
    {out : ℝ} {K : ℤ} (hout : out = K * (picode / 10 ^ i)) (hb : |out| ≤ 200) :
    ∃ N r, (∀ fuel : ℕ, N ≤ fuel → arctanUp x (picode / 10 ^ i) out fuel = some r) ∧
      (∃ K' : ℤ, r = K' * (picode / 10 ^ i)) ∧ |r| ≤ |out| + 12 := by
  have hpi := picode_bounds
  have hpip := picode_pos
  have h2pi : (0 : ℝ) < 2 * picode := by linarith
  have hst : (0 : ℝ) < picode / 10 ^ i := div_pos hpip (by positivity)
  obtain ⟨j, hj0, hjlow, hjhi⟩ : ∃ j : ℤ, 0 ≤ j ∧ out / (2 * picode) ≤ (j : ℝ) ∧
      (j : ℝ) ≤ |out| / (2 * picode) + 1 := by
    refine ⟨max 0 ⌈out / (2 * picode)⌉, le_max_left _ _, ?_, ?_⟩
    · exact le_trans (Int.le_ceil _) (by exact_mod_cast le_max_right _ _)
    · rcases max_choice 0 ⌈out / (2 * picode)⌉ with h | h
      · rw [h]
        have hd : (0 : ℝ) ≤ |out| / (2 * picode) := by positivity
        push_cast
        linarith
      · rw [h]
        have h1 : (⌈out / (2 * picode)⌉ : ℝ) < out / (2 * picode) + 1 := Int.ceil_lt_add_one _
        have h2 : out / (2 * picode) ≤ |out| / (2 * picode) :=
          (div_le_div_right h2pi).mpr (le_abs_self out)
        linarith
  obtain ⟨t, htdef⟩ : ∃ t : ℝ, t = 3 * picode / 2 + 2 * picode * j := ⟨_, rfl⟩
  have htpos : 0 < t := by
    rw [htdef]
    have hjj : (0 : ℝ) ≤ 2 * picode * (j : ℝ) :=
      mul_nonneg (by linarith) (by exact_mod_cast hj0)
    linarith
  have htge : out ≤ t := by
    rw [htdef]
    have h := (div_le_iff h2pi).mp hjlow
    rw [mul_comm] at h
    linarith
  have htmag : t ≤ |out| + 2 * picode + 3 * picode / 2 := by
    rw [htdef]
    have h := mul_le_mul_of_nonneg_left hjhi (le_of_lt h2pi)
    have h2 : 2 * picode * (|out| / (2 * picode) + 1) = |out| + 2 * picode := by
      field_simp
    rw [h2] at h
    linarith
  have htbig : t ≤ 10 ^ 10 := by
    have := abs_nonneg out
    linarith [hpi.2]
  have hclass : pymod t (2 * picode) = 3 * picode / 2 := by
    rw [htdef, pymod_add_int_mul _ _ (ne_of_gt h2pi) j,
      pymod_self_of (by linarith) (by linarith)]
  have htan := tan_class_pos htpos htbig hclass
  have heq : t - out = ((-K + 15 * 10 ^ (i - 1) + 2 * 10 ^ i * j : ℤ) : ℝ) *
      (picode / 10 ^ i) := by
    rw [htdef, hout]
    push_cast
    have h10 : (10 : ℝ) ^ i = 10 ^ (i - 1) * 10 := by
      rw [← pow_succ]
      congr 1
      omega
    rw [h10]
    field_simp
    ring
  obtain ⟨M, hM0, hMeq⟩ : ∃ M : ℤ, 0 ≤ M ∧ t - out = (M : ℝ) * (picode / 10 ^ i) := by
    refine ⟨_, ?_, heq⟩
    have h1 : (0 : ℝ) ≤ t - out := by linarith
    rw [heq] at h1
    exact_mod_cast (mul_nonneg_iff_of_pos_right hst).mp h1
  have hmcast : ((M.toNat : ℕ) : ℝ) = (M : ℝ) := by
    exact_mod_cast Int.toNat_of_nonneg hM0
  have hfail : ¬ F.lt (atan (F.num (out + (M.toNat : ℕ) * (picode / 10 ^ i)))) (F.num x) := by
    have hpt : out + ((M.toNat : ℕ) : ℝ) * (picode / 10 ^ i) = t := by
      rw [hmcast]
      linarith [hMeq]
    rw [hpt, atan_of_num htan]
    simp only [F.lt_num_num, not_lt]
    have hbig := big_ratio_ge
    linarith [le_abs_self x]
  obtain ⟨u, hu, hl⟩ := searchLoop_stops (fun o => F.lt (atan (F.num o)) (F.num x))
    (arctanUp x (picode / 10 ^ i)) (picode / 10 ^ i) (fun o f => rfl) M.toNat out
    (M.toNat + 1) (by omega) hfail
  refine ⟨M.toNat + 1, out + u * (picode / 10 ^ i), fun fuel hf =>
      searchLoop_mono (fun o => F.lt (atan (F.num o)) (F.num x))
        (arctanUp x (picode / 10 ^ i)) (picode / 10 ^ i) (fun o f => rfl) (fun o => rfl)
        (M.toNat + 1) out _ hl fuel hf, ⟨K + u, ?_⟩, ?_⟩
  · rw [hout]
    push_cast
    ring
  · have hule : (u : ℝ) * (picode / 10 ^ i) ≤ ((M.toNat : ℕ) : ℝ) * (picode / 10 ^ i) :=
      mul_le_mul_of_nonneg_right (by exact_mod_cast hu) hst.le
    have hrle : out + (u : ℝ) * (picode / 10 ^ i) ≤ t := by
      rw [hmcast] at hule
      linarith [hMeq]
    have hrge : out ≤ out + (u : ℝ) * (picode / 10 ^ i) := by
      have hp : (0 : ℝ) ≤ (u : ℝ) * (picode / 10 ^ i) := by positivity
      linarith
    rw [abs_le]
    constructor
    · linarith [neg_abs_le out]
    · linarith [le_abs_self out, hpi.2]

open Classical in
/-- The descending `arctan` search stops: within one period the sampled
grid hits a negative point of the class `pi/2 (mod 2*pi)`, where the
source's `tan` drops below every accepted argument. -/
theorem arctanDown_phase {x : ℝ} (hx : |x| < 2 * 10 ^ 15) {i : ℕ} (hi1 : 1 ≤ i)
    {out : ℝ} {K : ℤ} (hout : out = K * (picode / 10 ^ i)) (hb : |out| ≤ 200) :
    ∃ N r, (∀ fuel : ℕ, N ≤ fuel → arctanDown x (picode / 10 ^ i) out fuel = some r) ∧
      (∃ K' : ℤ, r = K' * (picode / 10 ^ i)) ∧ |r| ≤ |out| + 12 := by
  have hpi := picode_bounds
  have hpip := picode_pos
  have h2pi : (0 : ℝ) < 2 * picode := by linarith
  have hst : (0 : ℝ) < picode / 10 ^ i := div_pos hpip (by positivity)
  obtain ⟨j, hj0, hjlow, hjhi⟩ : ∃ j : ℤ, 0 ≤ j ∧ -out / (2 * picode) ≤ (j : ℝ) ∧
      (j : ℝ) ≤ |out| / (2 * picode) + 1 := by
    refine ⟨max 0 ⌈-out / (2 * picode)⌉, le_max_left _ _, ?_, ?_⟩
    · exact le_trans (Int.le_ceil _) (by exact_mod_cast le_max_right _ _)
    · rcases max_choice 0 ⌈-out / (2 * picode)⌉ with h | h
      · rw [h]
        have hd : (0 : ℝ) ≤ |out| / (2 * picode) := by positivity
        push_cast
        linarith
      · rw [h]
        have h1 : (⌈-out / (2 * picode)⌉ : ℝ) < -out / (2 * picode) + 1 := Int.ceil_lt_add_one _
        have h2 : -out / (2 * picode) ≤ |out| / (2 * picode) :=
          (div_le_div_right h2pi).mpr (neg_le_abs out)
        linarith
  obtain ⟨t, htdef⟩ : ∃ t : ℝ, t = -(3 * picode / 2) - 2 * picode * j := ⟨_, rfl⟩
  have htneg : t < 0 := by
    rw [htdef]
    have hjj : (0 : ℝ) ≤ 2 * picode * (j : ℝ) :=
      mul_nonneg (by linarith) (by exact_mod_cast hj0)
    linarith
  have htle : t ≤ out := by
    rw [htdef]
    have h := (div_le_iff h2pi).mp hjlow
    rw [mul_comm] at h
    linarith
  have htmag : -t ≤ |out| + 2 * picode + 3 * picode / 2 := by
    rw [htdef]
    have h := mul_le_mul_of_nonneg_left hjhi (le_of_lt h2pi)
    have h2 : 2 * picode * (|out| / (2 * picode) + 1) = |out| + 2 * picode := by
      field_simp
    rw [h2] at h
    linarith
  have htbig : -t ≤ 10 ^ 10 := by
    have := abs_nonneg out
    linarith [hpi.2]
  have hclass : pymod (-t) (2 * picode) = 3 * picode / 2 := by
    have hnt : -t = 3 * picode / 2 + 2 * picode * (j : ℝ) := by
      rw [htdef]
      ring
    rw [hnt, pymod_add_int_mul _ _ (ne_of_gt h2pi) j,
      pymod_self_of (by linarith) (by linarith)]
  have htan := tan_class_neg htneg htbig hclass
  have heq : out - t = ((K + 15 * 10 ^ (i - 1) + 2 * 10 ^ i * j : ℤ) : ℝ) *
      (picode / 10 ^ i) := by
    rw [htdef, hout]
    push_cast
    have h10 : (10 : ℝ) ^ i = 10 ^ (i - 1) * 10 := by
      rw [← pow_succ]
      congr 1
      omega
    rw [h10]
    field_simp
    ring
  obtain ⟨M, hM0, hMeq⟩ : ∃ M : ℤ, 0 ≤ M ∧ out - t = (M : ℝ) * (picode / 10 ^ i) := by
    refine ⟨_, ?_, heq⟩
    have h1 : (0 : ℝ) ≤ out - t := by linarith
    rw [heq] at h1
    exact_mod_cast (mul_nonneg_iff_of_pos_right hst).mp h1
  have hmcast : ((M.toNat : ℕ) : ℝ) = (M : ℝ) := by
    exact_mod_cast Int.toNat_of_nonneg hM0
  have hloop : ∀ (o : ℝ) (f : ℕ), arctanDown x (picode / 10 ^ i) o (f + 1) =
      if F.lt (F.num x) (atan (F.num o)) then
        arctanDown x (picode / 10 ^ i) (o + -(picode / 10 ^ i)) f
      else some o := by
    intro o f
    simp only [arctanDown]
    rw [sub_eq_add_neg]
  have hfail : ¬ F.lt (F.num x) (atan (F.num (out + (M.toNat : ℕ) * -(picode / 10 ^ i)))) := by
    have hpt : out + ((M.toNat : ℕ) : ℝ) * -(picode / 10 ^ i) = t := by
      rw [hmcast, mul_neg]
      linarith [hMeq]
    rw [hpt, atan_of_num htan]
    simp only [F.lt_num_num, not_lt]
    have hbig := big_ratio_ge
    linarith [neg_abs_le x]
  obtain ⟨u, hu, hl⟩ := searchLoop_stops (fun o => F.lt (F.num x) (atan (F.num o)))
    (arctanDown x (picode / 10 ^ i)) (-(picode / 10 ^ i)) hloop M.toNat out
    (M.toNat + 1) (by omega) hfail
  refine ⟨M.toNat + 1, out + u * -(picode / 10 ^ i), fun fuel hf =>
      searchLoop_mono (fun o => F.lt (F.num x) (atan (F.num o)))
        (arctanDown x (picode / 10 ^ i)) (-(picode / 10 ^ i)) hloop (fun o => rfl)
        (M.toNat + 1) out _ hl fuel hf, ⟨K - u, ?_⟩, ?_⟩
  · rw [hout]
    push_cast
    ring
  · have hule : (u : ℝ) * (picode / 10 ^ i) ≤ ((M.toNat : ℕ) : ℝ) * (picode / 10 ^ i) :=
      mul_le_mul_of_nonneg_right (by exact_mod_cast hu) hst.le
    have hrge : t ≤ out + (u : ℝ) * -(picode / 10 ^ i) := by
      rw [hmcast] at hule
      rw [mul_neg]
      linarith [hMeq]
    have hrle : out + (u : ℝ) * -(picode / 10 ^ i) ≤ out := by
      have hp : (0 : ℝ) ≤ (u : ℝ) * (picode / 10 ^ i) := by positivity
      rw [mul_neg]
      linarith
    rw [abs_le]
    constructor
    · linarith [neg_abs_le out]
    · linarith [le_abs_self out, hpi.2]

open Classical in
/-- The outer refinement of `arctan` terminates for every accepted
argument, by induction over the phase list with the grid and bound
invariants. -/
theorem arctanIter_term {x : ℝ} (hx : |x| < 2 * 10 ^ 15) :
    ∀ (l : List ℕ), (∀ j ∈ l, 1 ≤ j ∧ j ≤ 15) → List.Pairwise (· ≤ ·) l →
      ∀ (out : ℝ) (dt : Bool) (K : ℤ), out = K * (picode / 10 ^ (l.headD 15)) →
      |out| ≤ 200 - 12 * (l.length : ℝ) →
      ∃ N r, ∀ fuel : ℕ, N ≤ fuel → arctanIter x fuel l out dt = some r := by
  intro l
  induction l with
  | nil =>
    intro _ _ out dt K hK hb
    exact ⟨0, out, fun fuel _ => rfl⟩
  | cons i rest ih =>
    intro hmem hchain out dt K hK hb
    have hi := hmem i (List.mem_cons_self i rest)
    have hb' : |out| ≤ 200 := by
      have hlen : (0 : ℝ) ≤ 12 * (((i :: rest).length : ℕ) : ℝ) := by positivity
      linarith
    have hK' : out = K * (picode / 10 ^ i) := by simpa using hK
    have hphase : ∃ N r, (∀ fuel : ℕ, N ≤ fuel →
        (if dt then arctanDown x (picode / 10 ^ i) out fuel
         else arctanUp x (picode / 10 ^ i) out fuel) = some r) ∧
        (∃ K' : ℤ, r = K' * (picode / 10 ^ i)) ∧ |r| ≤ |out| + 12 := by
      cases dt
      · simpa using arctanUp_phase hx hi.1 hK' hb'
      · simpa using arctanDown_phase hx hi.1 hK' hb'
    obtain ⟨N1, r1, h1, ⟨K1, hK1⟩, hb1⟩ := hphase
    by_cases hbrk : F.peq (tan (F.num x)) (F.num r1)
    · refine ⟨N1, r1, fun fuel hf => ?_⟩
      simp only [arctanIter]
      rw [h1 fuel hf]
      simp only [Option.some_bind]
      rw [if_pos hbrk]
    · have hmem' : ∀ j ∈ rest, 1 ≤ j ∧ j ≤ 15 := fun j hj => hmem j (List.mem_cons_of_mem _ hj)
      have hchain' : List.Pairwise (· ≤ ·) rest := (List.pairwise_cons.mp hchain).2
      have hhead : i ≤ rest.headD 15 := by
        cases rest with
        | nil => simpa using hi.2
        | cons b bs =>
          have hc := (List.pairwise_cons.mp hchain).1 b (List.mem_cons_self b bs)
          simpa using hc
      have hgrid : r1 = ((K1 * 10 ^ (rest.headD 15 - i) : ℤ) : ℝ) *
          (picode / 10 ^ (rest.headD 15)) := by
        rw [hK1]
        have h10 : (10 : ℝ) ^ (rest.headD 15) = 10 ^ (rest.headD 15 - i) * 10 ^ i := by
          rw [← pow_add]
          congr 1
          omega
        push_cast
        rw [h10]
        field_simp
        ring
      have hblen : |r1| ≤ 200 - 12 * (rest.length : ℝ) := by
        have hlc : (((i :: rest).length : ℕ) : ℝ) = (rest.length : ℝ) + 1 := by
          push_cast [List.length_cons]
          ring
        rw [hlc] at hb
        linarith
      obtain ⟨N2, r2, h2⟩ := ih hmem' hchain' r1 (!dt) (K1 * 10 ^ (rest.headD 15 - i)) hgrid hblen
      refine ⟨max N1 N2, r2, fun fuel hf => ?_⟩
      simp only [arctanIter]
      rw [h1 fuel (le_trans (le_max_left _ _) hf)]
      simp only [Option.some_bind]
      rw [if_neg hbrk, h2 fuel (le_trans (le_max_right _ _) hf)]

open Classical in
/-- `arctan` terminates on every input. -/
theorem arctan_term (x : F) : ∃ fuel r, arctan fuel x = some r := by
  by_cases hg : F.le (tan (F.num (picode / 2 - 10 ^ (-15 : ℤ)))) (F.abs x) ∨ nan x
  · exact ⟨0, F.nan, by unfold arctan; rw [if_pos hg]⟩
  · cases x with
    | num v =>
      have hV : |v| < 2 * 10 ^ 15 := by
        have h1 : ¬ F.le (tan (F.num (picode / 2 - 10 ^ (-15 : ℤ)))) (F.abs (F.num v)) :=
          fun hc => hg (Or.inl hc)
        rw [tan_proxy_eval, F.abs_num] at h1
        simp only [F.le_num_num, not_le] at h1
        linarith [proxy_ratio_le]
      have hlist : (List.range 15).map (· + 1) =
          [1, 2, 3, 4, 5, 6, 7, 8, 9, 10, 11, 12, 13, 14, 15] := rfl
      have hmem : ∀ j ∈ (List.range 15).map (· + 1), 1 ≤ j ∧ j ≤ 15 := by
        rw [hlist]
        decide
      have hpw : List.Pairwise (· ≤ ·) ((List.range 15).map (· + 1)) := by
        rw [hlist]
        norm_num [List.pairwise_cons]
      obtain ⟨N, r, hN⟩ := arctanIter_term hV ((List.range 15).map (· + 1))
        hmem hpw 0 (decide (v < 0)) 0 (by norm_num) (by norm_num)
      refine ⟨N, F.num r, ?_⟩
      unfold arctan
      rw [if_neg hg]
      show (arctanIter v N ((List.range 15).map (· + 1)) 0 (decide (v < 0))).map F.num =
        some (F.num r)
      rw [hN N le_rfl]
      rfl
    | pinf => exact absurd (Or.inr nan_pinf) hg
    | ninf => exact absurd (Or.inr nan_ninf) hg
    | nan => exact absurd (Or.inr nan_nan) hg

/-- Claim C9: every bounded-search loop terminates on every input.  The
inner stepping `while` loops are modelled with a fuel budget (`none` =
budget exhausted), so termination of a search is the existence of a
budget on which it returns.  `arcsin`/`arccos` stop because past the
`10^10` ceiling the sampled series is NaN and the Python comparison is
false; `ln` stops by monotonicity of `e ** out`; `arctan` — whose loops
compare against the always-finite `atan(out)` — stops because the
sampled grid hits the asymptote residue class within one period, where
the source's `tan` sample (about `3.6*10^16`) exceeds the proxy ceiling
(about `1.03*10^15`) bounding every accepted argument; and the `fi`
periodicity search gives up as soon as its counter reaches the cap
`2*10^5`. -/
theorem claim_C9 :
    (∀ x : F, ∃ fuel r, arcsin fuel x = some r) ∧
    (∀ x : F, ∃ fuel r, arccos fuel x = some r) ∧
    (∀ x : F, ∃ fuel r, arctan fuel x = some r) ∧
    (∀ x : F, ∃ fuel r, ln fuel x = some r) ∧
    (∀ (n : ℝ) (k : ℕ), 2 * 10 ^ 5 ≤ k → fiLoop n k = F.num 10) :=
  ⟨arcsin_term, arccos_term, arctan_term, ln_term, fiLoop_cap⟩

/-- Closed instance for C9: the `fi` search cap fires at `2*10^5`. -/
theorem claim_C9_witness :
    2 * 10 ^ 5 ≤ 2 * 10 ^ 5 ∧ fiLoop (1 / 7) (2 * 10 ^ 5) = F.num 10 :=
  ⟨le_rfl, claim_C9.2.2.2.2 (1 / 7) (2 * 10 ^ 5) le_rfl⟩

end DCalc
